import Mathlib

/-!
Verification development for the Stocky reward-ledger-pricing backend.

The Go source uses `github.com/shopspring/decimal`, an exact decimal
(arbitrary-precision) type; we embed decimal values as rationals `ℚ`.
`decimal.Decimal.Round(n)` rounds half away from zero at `n` fractional
digits, which `roundDp` models.  Timestamps (`time.Time`) are embedded as
integers counting nanoseconds (Go's native resolution); all date
arithmetic in the source happens in UTC, where a calendar day is exactly
`nsPerDay` nanoseconds.

The durable store (PostgreSQL via GORM) is embedded as in-memory lists in
insertion order inside `DBState`; GORM soft deletion on `reward_events`
is the `deleted` flag.  The mock price generator's randomness is embedded
as a pre-drawn stream of variation percentages (`PriceGenerator.rand`).
-/

set_option allowUnsafeReducibility true in
attribute [semireducible] Rat.mul Rat.add Rat.sub Rat.div Rat.inv Rat.neg

namespace Stocky

/-- Round half away from zero to an integer, the rounding mode of
`shopspring/decimal.Decimal.Round`. -/
def roundHalfAway (x : ℚ) : ℤ :=
  if 0 ≤ x then ⌊x + 1/2⌋ else -⌊-x + 1/2⌋

/-- Round to `d` fractional decimal digits, half away from zero
(`decimal.Decimal.Round(d)`). -/
def roundDp (d : ℕ) (x : ℚ) : ℚ :=
  (roundHalfAway (x * 10 ^ d) : ℚ) / 10 ^ d

/-- utils.RoundINR: rounds an INR amount to 4 decimal places. -/
def RoundINR (amount : ℚ) : ℚ := roundDp 4 amount

/-- utils.RoundQuantity: rounds a share quantity to 6 decimal places. -/
def RoundQuantity (quantity : ℚ) : ℚ := roundDp 6 quantity

/-- Result of `utils.CalculateFees`: the four returned decimals. -/
structure Fees where
  brokerage : ℚ
  stt : ℚ
  gst : ℚ
  total : ℚ
deriving DecidableEq

/-- utils.CalculateFees: brokerage is 0.03% of transaction value capped at
₹20, STT is 0.1%, GST is 18% of (capped) brokerage; the total is the sum
of the three unrounded components; all four results are rounded to 4
decimal places at the end (the components are summed before any
rounding). -/
def CalculateFees (pricePerShare quantity : ℚ) : Fees :=
  let totalValue := pricePerShare * quantity
  let brokerage0 := totalValue * (3 / 10000)
  let brokerage := if brokerage0 > 20 then 20 else brokerage0
  let stt := totalValue * (1 / 1000)
  let gst := brokerage * (18 / 100)
  let total := brokerage + stt + gst
  ⟨RoundINR brokerage, RoundINR stt, RoundINR gst, RoundINR total⟩

/-- Modelled from the spec: the fee total as the spec describes it, with
each component independently rounded to 4 decimals *before* summing into
`totalFees`, and the final total also rounded to 4 decimals.  Written to
be compared with `CalculateFees`, whose total sums the unrounded
components. -/
def totalFeesSpecRounded (pricePerShare quantity : ℚ) : ℚ :=
  let totalValue := pricePerShare * quantity
  let brokerage0 := totalValue * (3 / 10000)
  let brokerage := if brokerage0 > 20 then 20 else brokerage0
  let stt := totalValue * (1 / 1000)
  let gst := brokerage * (18 / 100)
  RoundINR (RoundINR brokerage + RoundINR stt + RoundINR gst)

/-- utils.ValidateQuantity: positive and at most 10000 shares. -/
def ValidateQuantity (quantity : ℚ) : Bool :=
  decide (0 < quantity) && decide (quantity ≤ 10000)

/-- utils.ValidateStockSymbol: length between 1 and 20 (the Go check is on
byte length; stock symbols are ASCII, where byte and character length
agree). -/
def ValidateStockSymbol (symbol : String) : Bool :=
  decide (1 ≤ symbol.length) && decide (symbol.length ≤ 20)

/-! ## Time model

Instants are nanosecond counts; the source works exclusively in UTC where
every calendar day is exactly 24 h, so `AddDate(0, 0, 1)` advances an
instant by `nsPerDay` and `time.Date(y, m, d, 0, 0, 0, 0, UTC)` truncates
to a multiple of `nsPerDay` (floor division, also for instants before the
epoch). -/

/-- Nanoseconds in one UTC day. -/
def nsPerDay : Int := 86400000000000

/-- Nanoseconds in one hour (`time.Hour`). -/
def nsPerHour : Int := 3600000000000

/-- utils.StartOfDayUTC: midnight UTC of the instant's day. -/
def StartOfDayUTC (t : Int) : Int := nsPerDay * (t.ediv nsPerDay)

/-- utils.EndOfDayUTC: 23:59:59.999999999 UTC, the last nanosecond of the
instant's day. -/
def EndOfDayUTC (t : Int) : Int := StartOfDayUTC t + (nsPerDay - 1)

/-- utils.GetYesterday: start of day of `now` minus one calendar day. -/
def GetYesterday (now : Int) : Int := StartOfDayUTC (now - nsPerDay)

/-- utils.GetPastDates: the day-start instants from `StartOfDayUTC
startDate` to `StartOfDayUTC endDate` inclusive, stepping one day at a
time; empty when the start lies after the end.  This is the closed form
of the source's loop `for !current.After(end) { append; current =
current.AddDate(0,0,1) }`. -/
def GetPastDates (startDate endDate : Int) : List Int :=
  let s := StartOfDayUTC startDate
  let e := StartOfDayUTC endDate
  if s ≤ e then
    (List.range (((e - s).ediv nsPerDay).toNat + 1)).map
      (fun (i : Nat) => s + nsPerDay * (i : Int))
  else []

/-! ## Data model (models/models.go) -/

/-- models.RewardEvent row.  `deleted` embeds GORM's `DeletedAt` soft
delete marker: `true` means `deleted_at IS NOT NULL`. -/
structure RewardEvent where
  id : Nat
  userId : Int
  stockSymbol : String
  quantity : ℚ
  timestamp : Int
  deleted : Bool
deriving DecidableEq

/-- models.EntryType: STOCK, CASH or FEE. -/
inductive EntryType where
  | STOCK
  | CASH
  | FEE
deriving DecidableEq

/-- models.LedgerEntry row. -/
structure LedgerEntry where
  rewardEventID : Nat
  entryType : EntryType
  stockSymbol : Option String
  quantity : ℚ
  amountINR : ℚ
  timestamp : Int
deriving DecidableEq

/-- models.PriceHistory row. -/
structure PriceHistory where
  stockSymbol : String
  priceINR : ℚ
  timestamp : Int
deriving DecidableEq

/-- utils.PriceGenerator: the in-memory base-price table, plus the
pre-drawn stream of random variations (percent, in [-5, 5)) that embeds
`rng.Float64()*10 - 5`. -/
structure PriceGenerator where
  basePrices : List (String × ℚ)
  rand : List ℚ
deriving DecidableEq

/-- The durable store plus the price generator: tables in insertion
order, and `nextId` the next primary key the grants sequence will
assign. -/
structure DBState where
  rewards : List RewardEvent
  entries : List LedgerEntry
  prices : List PriceHistory
  nextId : Nat
  gen : PriceGenerator
deriving DecidableEq

/-! ## Price generator (utils/price_generator.go) -/

/-- Lookup in the base-price table (Go map read). -/
def lookupBase (l : List (String × ℚ)) (symbol : String) : Option ℚ :=
  match l.find? (fun p => p.1 == symbol) with
  | some p => some p.2
  | none => none

/-- Go map assignment on the base-price table. -/
def setBase (l : List (String × ℚ)) (symbol : String) (v : ℚ) : List (String × ℚ) :=
  if l.any (fun p => p.1 == symbol) then
    l.map (fun p => if p.1 == symbol then (p.1, v) else p)
  else l ++ [(symbol, v)]

/-- PriceGenerator.GeneratePrice: base price (default 1000, recorded in
the table when missing) times `1 + variation/100`, rounded to 4 decimal
places; consumes one pre-drawn variation. -/
def GeneratePrice (g : PriceGenerator) (symbol : String) : ℚ × PriceGenerator :=
  let (basePrice, g1) :=
    match lookupBase g.basePrices symbol with
    | some b => (b, g)
    | none => ((1000 : ℚ), { g with basePrices := setBase g.basePrices symbol 1000 })
  let variation := g1.rand.headD 0
  let g2 := { g1 with rand := g1.rand.tail }
  (roundDp 4 (basePrice * (1 + variation / 100)), g2)

/-! ## Price service (services/price_service.go) -/

/-- The row a `First` under `ORDER BY timestamp DESC` returns among the
rows satisfying `keep`: maximal timestamp, earliest-inserted on ties. -/
def latestPriceBy (prices : List PriceHistory) (keep : PriceHistory → Bool) :
    Option PriceHistory :=
  prices.foldl
    (fun acc ph =>
      if keep ph then
        match acc with
        | none => some ph
        | some b => if ph.timestamp > b.timestamp then some ph else acc
      else acc)
    none

/-- PriceService.SavePrice: append the rounded price stamped `now`, and
update the generator's base price (with the unrounded argument) for
gradual movement. -/
def SavePrice (st : DBState) (now : Int) (symbol : String) (price : ℚ) : DBState :=
  { st with
    prices := st.prices ++ [⟨symbol, RoundINR price, now⟩],
    gen := { st.gen with basePrices := setBase st.gen.basePrices symbol price } }

/-- PriceService.GetCurrentPrice: latest stored sample if it is at most
2 hours old; otherwise (stale or absent) generate a fresh price, persist
it and return it. -/
def GetCurrentPrice (st : DBState) (now : Int) (symbol : String) : ℚ × DBState :=
  match latestPriceBy st.prices (fun ph => ph.stockSymbol == symbol) with
  | none =>
    let (price, g) := GeneratePrice st.gen symbol
    (price, SavePrice { st with gen := g } now symbol price)
  | some priceHistory =>
    if now - priceHistory.timestamp > 2 * nsPerHour then
      let (price, g) := GeneratePrice st.gen symbol
      (price, SavePrice { st with gen := g } now symbol price)
    else (priceHistory.priceINR, st)

/-- PriceService.GetPriceAtTime: latest sample observed at or before
`timestamp`, falling back to `GetCurrentPrice` when no history exists
before that point. -/
def GetPriceAtTime (st : DBState) (now : Int) (symbol : String) (timestamp : Int) :
    ℚ × DBState :=
  match latestPriceBy st.prices
      (fun ph => ph.stockSymbol == symbol && decide (ph.timestamp ≤ timestamp)) with
  | none => GetCurrentPrice st now symbol
  | some priceHistory => (priceHistory.priceINR, st)

/-! ## Ledger service (services/ledger_service.go) -/

/-- The live-grant tuple match used by the deduplication query
(`user_id = ? AND stock_symbol = ? AND quantity = ? AND timestamp = ?`
with GORM's implicit `deleted_at IS NULL`). -/
def matchesTuple (userId : Int) (symbol : String) (quantity : ℚ) (timestamp : Int)
    (r : RewardEvent) : Bool :=
  !r.deleted && decide (r.userId = userId) && r.stockSymbol == symbol &&
    decide (r.quantity = quantity) && decide (r.timestamp = timestamp)

/-- The live grants matching a dedup tuple. -/
def liveGrantsMatching (st : DBState) (userId : Int) (symbol : String)
    (quantity : ℚ) (timestamp : Int) : List RewardEvent :=
  st.rewards.filter (matchesTuple userId symbol quantity timestamp)

/-- All ledger entries referencing a grant id
(`WHERE reward_event_id = ?`). -/
def entriesOfGrant (st : DBState) (rewardEventId : Nat) : List LedgerEntry :=
  st.entries.filter (fun e => e.rewardEventID == rewardEventId)

/-- The `WHERE` clause of the holdings queries: STOCK entries with a
symbol whose owning grant (inner join on `reward_event_id = re.id`)
belongs to the user, is live, and satisfies `cond` (the up-to-date
variant adds `re.timestamp <= ?` there). -/
def qualifies (rewards : List RewardEvent) (userId : Int) (cond : RewardEvent → Bool)
    (e : LedgerEntry) : Bool :=
  decide (e.entryType = EntryType.STOCK) && e.stockSymbol.isSome &&
    (match rewards.find? (fun r => r.id == e.rewardEventID) with
     | some r => !r.deleted && decide (r.userId = userId) && cond r
     | none => false)

def qualifyingEntries (st : DBState) (userId : Int) (cond : RewardEvent → Bool) :
    List LedgerEntry :=
  st.entries.filter (qualifies st.rewards userId cond)

/-- Distinct symbols of a list of entries, in first-appearance order. -/
def symbolsOf (es : List LedgerEntry) : List String :=
  es.foldl
    (fun acc e =>
      match e.stockSymbol with
      | some s => if s ∈ acc then acc else acc ++ [s]
      | none => acc)
    []

/-- `SUM(le.quantity)` over the entries carrying the given symbol. -/
def sumQtyFor (es : List LedgerEntry) (s : String) : ℚ :=
  ((es.filter (fun e => e.stockSymbol == some s)).map (fun e => e.quantity)).sum

/-- `GROUP BY le.stock_symbol ... HAVING SUM(le.quantity) > 0` over a
filtered entry list. -/
def groupBySymbol (es : List LedgerEntry) : List (String × ℚ) :=
  (symbolsOf es).filterMap (fun s =>
    if 0 < sumQtyFor es s then some (s, sumQtyFor es s) else none)

/-- LedgerService.GetUserStockHoldings: net STOCK quantity per symbol
over all live grants of the user, positive sums only. -/
def GetUserStockHoldings (st : DBState) (userId : Int) : List (String × ℚ) :=
  groupBySymbol (qualifyingEntries st userId (fun _ => true))

/-- LedgerService.GetUserStockHoldingsUpToDate: the same restricted to
entries whose owning grant's event timestamp is at most `endDate`. -/
def GetUserStockHoldingsUpToDate (st : DBState) (userId : Int) (endDate : Int) :
    List (String × ℚ) :=
  groupBySymbol (qualifyingEntries st userId (fun r => decide (r.timestamp ≤ endDate)))

/-- LedgerService.CreateReversalEntries: fetch the entries recorded for
the grant (the source calls them `originalEntries`, but the query
returns every entry carrying the grant id, reversals included) and
append, for each, a copy with negated quantity and amount stamped
`now`. -/
def CreateReversalEntries (st : DBState) (now : Int) (rewardEventId : Nat) : DBState :=
  let originalEntries := st.entries.filter (fun e => e.rewardEventID == rewardEventId)
  let reversalEntries := originalEntries.map (fun e =>
    { e with quantity := -e.quantity, amountINR := -e.amountINR, timestamp := now })
  { st with entries := st.entries ++ reversalEntries }

/-- `CreateReversalEntries` invoked once per element of `nows` (the
successive reversal timestamps), left to right. -/
def reverseNTimes (st : DBState) (rewardEventId : Nat) (nows : List Int) : DBState :=
  nows.foldl (fun s now => CreateReversalEntries s now rewardEventId) st

/-! ## Reward service (the reward_service.go part of the services) -/

/-- Decidable equality for `Except`, so that concrete runs of the write
path can be evaluated by `decide`. -/
instance instDecEqExcept {ε α : Type} [DecidableEq ε] [DecidableEq α] :
    DecidableEq (Except ε α) := fun x y =>
  match x, y with
  | .ok a, .ok b =>
    if h : a = b then .isTrue (by rw [h]) else .isFalse (fun hc => h (Except.ok.inj hc))
  | .error a, .error b =>
    if h : a = b then .isTrue (by rw [h]) else .isFalse (fun hc => h (Except.error.inj hc))
  | .ok _, .error _ => .isFalse (fun hc => Except.noConfusion hc)
  | .error _, .ok _ => .isFalse (fun hc => Except.noConfusion hc)

/-- The error outcomes of `RewardService.CreateReward`. -/
inductive RewardError where
  | invalidSymbol
  | invalidQuantity
  | duplicateReward
deriving DecidableEq

/-- RewardService.createLedgerEntriesInTx: the three entries posted for
a grant — STOCK (+quantity, +totalValue), CASH (0, −totalValue), FEE
(0, −totalFees) — all stamped with the grant's event timestamp. -/
def createLedgerEntriesInTx (rewardEvent : RewardEvent) (pricePerShare : ℚ) :
    List LedgerEntry :=
  let quantity := rewardEvent.quantity
  let symbol := rewardEvent.stockSymbol
  let timestamp := rewardEvent.timestamp
  let totalValue := RoundINR (pricePerShare * quantity)
  let totalFees := (CalculateFees pricePerShare quantity).total
  [ ⟨rewardEvent.id, EntryType.STOCK, some symbol, quantity, totalValue, timestamp⟩,
    ⟨rewardEvent.id, EntryType.CASH, some symbol, 0, -totalValue, timestamp⟩,
    ⟨rewardEvent.id, EntryType.FEE, some symbol, 0, -totalFees, timestamp⟩ ]

/-- RewardService.CreateReward: validate symbol and quantity, round the
quantity to 6 decimals, reject live duplicates of the (user, symbol,
rounded quantity, timestamp) tuple, then look up the current price and
atomically insert the grant row and its three ledger entries.  A failure
leaves the store untouched (the duplicate check precedes every write,
and the transaction rolls back as a whole). -/
def CreateReward (st : DBState) (now : Int) (userId : Int) (symbol : String)
    (quantity0 : ℚ) (timestamp : Int) : Except RewardError DBState :=
  if ValidateStockSymbol symbol = false then .error .invalidSymbol
  else if ValidateQuantity quantity0 = false then .error .invalidQuantity
  else
    let quantity := RoundQuantity quantity0
    if st.rewards.any (matchesTuple userId symbol quantity timestamp) then
      .error .duplicateReward
    else
      let (pricePerShare, st1) := GetCurrentPrice st now symbol
      let rewardEvent : RewardEvent :=
        ⟨st1.nextId, userId, symbol, quantity, timestamp, false⟩
      .ok { st1 with
            rewards := st1.rewards ++ [rewardEvent],
            entries := st1.entries ++ createLedgerEntriesInTx rewardEvent pricePerShare,
            nextId := st1.nextId + 1 }

/-- The state visible after a `CreateReward` call: the committed state on
success, the unchanged input state on error (the transaction rolled
back, or no write was ever attempted). -/
def applyCreateReward (st : DBState) (now : Int) (userId : Int) (symbol : String)
    (quantity0 : ℚ) (timestamp : Int) : DBState :=
  match CreateReward st now userId symbol quantity0 timestamp with
  | .ok st1 => st1
  | .error _ => st

/-- The row `ORDER BY timestamp ASC ... First` returns among the user's
live grants: minimal event timestamp, earliest-inserted on ties. -/
def firstLiveReward (st : DBState) (userId : Int) : Option RewardEvent :=
  st.rewards.foldl
    (fun acc r =>
      if !r.deleted && decide (r.userId = userId) then
        match acc with
        | none => some r
        | some b => if r.timestamp < b.timestamp then some r else acc
      else acc)
    none

/-- One day of the `GetHistoricalINR` loop body: holdings as of the end
of the day, then the value sum with `GetPriceAtTime` lookups threading
the store (a fallback lookup may persist a generated price). -/
def historicalDayValue (st : DBState) (now : Int) (userId : Int) (date : Int) :
    ℚ × DBState :=
  let endOfDate := EndOfDayUTC date
  let holdings := GetUserStockHoldingsUpToDate st userId endOfDate
  holdings.foldl
    (fun acc p =>
      let (price, st2) := GetPriceAtTime acc.2 now p.1 endOfDate
      (acc.1 + price * p.2, st2))
    (0, st)

/-- RewardService.GetHistoricalINR: one `(day, RoundINR value)` row per
UTC day from the user's first live grant's day through yesterday, empty
when the user has no live grant. -/
def GetHistoricalINR (st : DBState) (now : Int) (userId : Int) :
    List (Int × ℚ) × DBState :=
  match firstLiveReward st userId with
  | none => ([], st)
  | some firstReward =>
    let yesterday := GetYesterday now
    let startDate := StartOfDayUTC firstReward.timestamp
    let dates := GetPastDates startDate yesterday
    dates.foldl
      (fun acc date =>
        let (totalValue, st2) := historicalDayValue acc.2 now userId date
        (acc.1 ++ [(date, RoundINR totalValue)], st2))
      ([], st)

/-- Lookup of a symbol in a holdings result (the map the Go services
iterate over). -/
def holdingsLookup (h : List (String × ℚ)) (s : String) : Option ℚ :=
  (h.find? (fun p => p.1 == s)).map (fun p => p.2)

/-! ## Read paths with fallible collaborators

`GetStats`, `GetPortfolio` and the `GetHistoricalINR` loop call the
store and the price service, which can fail; the source reacts to some
failures by returning an error and to others by `continue`.  These
variants embed exactly that control flow, with each collaborator call
abstracted as an `Except`-valued oracle. -/

/-- RewardService.GetPortfolio with the two collaborator calls abstract:
a holdings failure aborts with the error, but a per-symbol
`GetCurrentPrice` failure only skips the symbol (`continue`), so the
call still succeeds with the remaining items. -/
def GetPortfolioF (holdingsRes : Except Unit (List (String × ℚ)))
    (priceRes : String → Except Unit ℚ) :
    Except Unit (List (String × ℚ × ℚ × ℚ) × ℚ) :=
  match holdingsRes with
  | .error e => .error e
  | .ok holdings =>
    let folded := holdings.foldl
      (fun (acc : List (String × ℚ × ℚ × ℚ) × ℚ) p =>
        match priceRes p.1 with
        | .error _ => acc
        | .ok price =>
          (acc.1 ++ [(p.1, p.2, RoundINR price, RoundINR (price * p.2))],
            acc.2 + price * p.2))
      ([], 0)
    .ok (folded.1, RoundINR folded.2)

/-- RewardService.GetStats with collaborators abstract: failures of
today's-rewards fetch or of the holdings fetch abort with the error; a
per-symbol price failure only skips the symbol's contribution to the
portfolio value. -/
def GetStatsF (todayRes : Except Unit (List (String × ℚ)))
    (holdingsRes : Except Unit (List (String × ℚ)))
    (priceRes : String → Except Unit ℚ) :
    Except Unit (List (String × ℚ) × ℚ) :=
  match todayRes with
  | .error e => .error e
  | .ok todayRewards =>
    match holdingsRes with
    | .error e => .error e
    | .ok holdings =>
      let totalValue := holdings.foldl
        (fun (acc : ℚ) p =>
          match priceRes p.1 with
          | .error _ => acc
          | .ok price => acc + price * p.2)
        0
      .ok (todayRewards, RoundINR totalValue)

/-- The `GetHistoricalINR` date loop with collaborators abstract: a
failed holdings fetch skips the whole day (`continue`), a failed price
fetch skips the symbol, and neither failure aborts the call. -/
def GetHistoricalINRF (dates : List Int)
    (holdingsAt : Int → Except Unit (List (String × ℚ)))
    (priceAt : String → Int → Except Unit ℚ) : List (Int × ℚ) :=
  dates.foldl
    (fun acc date =>
      let endOfDate := EndOfDayUTC date
      match holdingsAt endOfDate with
      | .error _ => acc
      | .ok holdings =>
        let totalValue := holdings.foldl
          (fun (a : ℚ) p =>
            match priceAt p.1 endOfDate with
            | .error _ => a
            | .ok price => a + price * p.2)
          0
        acc ++ [(date, RoundINR totalValue)])
    []

/-! ## Rounding lemmas -/

theorem floor_half : ⌊(1/2 : ℚ)⌋ = 0 := by
  rw [Int.floor_eq_iff]
  norm_num

theorem floor_intCast_add_half (m : ℤ) : ⌊(m : ℚ) + 1/2⌋ = m := by
  rw [Int.floor_int_add, floor_half, add_zero]

theorem roundHalfAway_intCast (n : ℤ) : roundHalfAway (n : ℚ) = n := by
  unfold roundHalfAway
  by_cases h : (0 : ℚ) ≤ (n : ℚ)
  · rw [if_pos h, floor_intCast_add_half]
  · rw [if_neg h, show -(n : ℚ) = ((-n : ℤ) : ℚ) by push_cast; ring,
      floor_intCast_add_half, neg_neg]

theorem roundDp_intCast (d : ℕ) (n : ℤ) : roundDp d (n : ℚ) = n * 10 ^ d / 10 ^ d := by
  unfold roundDp
  rw [show ((n : ℚ) * 10 ^ d) = ((n * 10 ^ d : ℤ) : ℚ) by push_cast; ring,
    roundHalfAway_intCast]


theorem roundDp_intCast' (d : ℕ) (n : ℤ) : roundDp d (n : ℚ) = n := by
  rw [roundDp_intCast, mul_div_assoc, div_self (by positivity : ((10 : ℚ) ^ d) ≠ 0),
    mul_one]

theorem RoundINR_twenty : RoundINR 20 = 20 := by
  have h := roundDp_intCast' 4 20
  unfold RoundINR
  push_cast at h
  exact h

theorem roundDp_le_int (d : ℕ) (x : ℚ) (k : ℤ) (hk : 0 ≤ k) (h : x ≤ (k : ℚ)) :
    roundDp d x ≤ (k : ℚ) := by
  unfold roundDp roundHalfAway
  have hpow : (0 : ℚ) < 10 ^ d := by positivity
  by_cases hx : (0 : ℚ) ≤ x * 10 ^ d
  · rw [if_pos hx, div_le_iff₀ hpow]
    have h1 : ⌊x * 10 ^ d + 1/2⌋ ≤ ⌊(k : ℚ) * 10 ^ d + 1/2⌋ := by
      apply Int.floor_mono
      have := mul_le_mul_of_nonneg_right h (le_of_lt hpow)
      linarith
    have h2 : ⌊(k : ℚ) * 10 ^ d + 1/2⌋ = k * 10 ^ d := by
      rw [show ((k : ℚ) * 10 ^ d) = ((k * 10 ^ d : ℤ) : ℚ) by push_cast; ring,
        floor_intCast_add_half]
    calc ((⌊x * 10 ^ d + 1/2⌋ : ℤ) : ℚ) ≤ ((k * 10 ^ d : ℤ) : ℚ) := by
          exact_mod_cast h2 ▸ h1
      _ = (k : ℚ) * 10 ^ d := by push_cast; ring
  · rw [if_neg hx]
    have hneg : (0 : ℚ) ≤ -(x * 10 ^ d) + 1/2 := by
      push_neg at hx
      linarith
    have h0 : (0 : ℤ) ≤ ⌊-(x * 10 ^ d) + 1/2⌋ := by
      rw [Int.le_floor]
      exact_mod_cast hneg
    have : (((-⌊-(x * 10 ^ d) + 1/2⌋ : ℤ)) : ℚ) ≤ 0 := by
      simp only [Int.cast_neg, neg_nonpos]
      exact_mod_cast h0
    calc ((-⌊-(x * 10 ^ d) + 1/2⌋ : ℤ) : ℚ) / 10 ^ d ≤ 0 := by
          apply div_nonpos_of_nonpos_of_nonneg this (le_of_lt hpow)
      _ ≤ (k : ℚ) := by exact_mod_cast hk

theorem RoundINR_eq_twenty_between (x : ℚ) (h1 : 20 < x) (h2 : x ≤ 20000001/1000000) :
    RoundINR x = 20 := by
  unfold RoundINR roundDp roundHalfAway
  rw [if_pos (by nlinarith : (0 : ℚ) ≤ x * 10 ^ 4)]
  have hfl : ⌊x * 10 ^ 4 + 1/2⌋ = 200000 := by
    rw [Int.floor_eq_iff]
    norm_num
    constructor <;> nlinarith
  rw [hfl]
  norm_num

theorem roundDp_roundDp (d : ℕ) (x : ℚ) : roundDp d (roundDp d x) = roundDp d x := by
  conv_lhs => rw [roundDp]
  rw [show roundDp d x * 10 ^ d = ((roundHalfAway (x * 10 ^ d) : ℤ) : ℚ) by
    rw [roundDp, div_mul_cancel₀]
    positivity]
  rw [roundHalfAway_intCast, roundDp]

theorem RoundQuantity_idem (q : ℚ) : RoundQuantity (RoundQuantity q) = RoundQuantity q :=
  roundDp_roundDp 6 q

/-! ## List summation lemmas -/

theorem sum_map_append {α : Type} (a b : List α) (c : α → ℚ) :
    ((a ++ b).map c).sum = (a.map c).sum + (b.map c).sum := by
  rw [List.map_append, List.sum_append]

theorem sum_map_filter {α : Type} (l : List α) (b : α → Bool) (c : α → ℚ) :
    ((l.filter b).map c).sum = (l.map (fun e => if b e = true then c e else 0)).sum := by
  induction l with
  | nil => rfl
  | cons hd tl ih =>
    cases hb : b hd <;>
      simp [List.filter_cons, hb, ih]

theorem sum_map_partition {α : Type} (l : List α) (b : α → Bool) (c : α → ℚ) :
    (l.map c).sum =
      ((l.filter b).map c).sum + ((l.filter (fun e => !b e)).map c).sum := by
  induction l with
  | nil => simp
  | cons hd tl ih =>
    cases hb : b hd <;>
      simp [List.filter_cons, hb, ih] <;>
      ring

theorem sum_map_neg_pointwise {α : Type} (l : List α) (c d : α → ℚ)
    (h : ∀ e ∈ l, c e = -(d e)) : (l.map c).sum = -((l.map d).sum) := by
  induction l with
  | nil => simp
  | cons hd tl ih =>
    simp only [List.map_cons, List.sum_cons, h hd (by simp), neg_add]
    rw [ih (fun e he => h e (by simp [he]))]

/-! ## Holdings lemmas -/

theorem sumQtyFor_eq_sum_map (es : List LedgerEntry) (s : String) :
    sumQtyFor es s =
      (es.map (fun e => if (e.stockSymbol == some s) = true then e.quantity else 0)).sum := by
  unfold sumQtyFor
  exact sum_map_filter es _ _

theorem sumQtyFor_append (a b : List LedgerEntry) (s : String) :
    sumQtyFor (a ++ b) s = sumQtyFor a s + sumQtyFor b s := by
  rw [sumQtyFor_eq_sum_map, sumQtyFor_eq_sum_map, sumQtyFor_eq_sum_map, sum_map_append]

theorem mem_symbolsOf (es : List LedgerEntry) (s : String) :
    s ∈ symbolsOf es ↔ ∃ e ∈ es, e.stockSymbol = some s := by
  have general : ∀ (l : List LedgerEntry) (acc : List String),
      s ∈ l.foldl
        (fun acc e =>
          match e.stockSymbol with
          | some t => if t ∈ acc then acc else acc ++ [t]
          | none => acc) acc ↔
      s ∈ acc ∨ ∃ e ∈ l, e.stockSymbol = some s := by
    intro l
    induction l with
    | nil => simp
    | cons hd tl ih =>
      intro acc
      rw [List.foldl_cons, ih]
      cases hsym : hd.stockSymbol with
      | none => simp [hsym]
      | some t =>
        by_cases ht : t ∈ acc
        · simp only [hsym, if_pos ht]
          constructor
          · rintro (h | ⟨e, he, hes⟩)
            · exact Or.inl h
            · exact Or.inr ⟨e, List.mem_cons_of_mem hd he, hes⟩
          · rintro (h | ⟨e, he, hes⟩)
            · exact Or.inl h
            · rcases List.mem_cons.mp he with rfl | he2
              · rw [hsym] at hes
                injection hes with hts
                exact Or.inl (hts ▸ ht)
              · exact Or.inr ⟨e, he2, hes⟩
        · simp only [hsym, if_neg ht, List.mem_append, List.mem_singleton]
          constructor
          · rintro ((h | rfl) | ⟨e, he, hes⟩)
            · exact Or.inl h
            · exact Or.inr ⟨hd, List.mem_cons_self hd tl, by rw [hsym]⟩
            · exact Or.inr ⟨e, List.mem_cons_of_mem hd he, hes⟩
          · rintro (h | ⟨e, he, hes⟩)
            · exact Or.inl (Or.inl h)
            · rcases List.mem_cons.mp he with rfl | he2
              · rw [hsym] at hes
                injection hes with hts
                exact Or.inl (Or.inr hts.symm)
              · exact Or.inr ⟨e, he2, hes⟩
  rw [symbolsOf, general]
  simp

theorem symbolsOf_nodup (es : List LedgerEntry) : (symbolsOf es).Nodup := by
  have general : ∀ (l : List LedgerEntry) (acc : List String), acc.Nodup →
      (l.foldl
        (fun acc e =>
          match e.stockSymbol with
          | some t => if t ∈ acc then acc else acc ++ [t]
          | none => acc) acc).Nodup := by
    intro l
    induction l with
    | nil => exact fun acc h => h
    | cons hd tl ih =>
      intro acc hacc
      rw [List.foldl_cons]
      apply ih
      cases hsym : hd.stockSymbol with
      | none => exact hacc
      | some t =>
        by_cases ht : t ∈ acc
        · simpa [hsym, ht] using hacc
        · simp only [hsym, if_neg ht]
          simp [List.nodup_append, hacc, ht]
  exact general es [] List.nodup_nil

theorem sumQtyFor_eq_zero_of_not_mem (es : List LedgerEntry) (s : String)
    (h : s ∉ symbolsOf es) : sumQtyFor es s = 0 := by
  rw [sumQtyFor_eq_sum_map]
  apply List.sum_eq_zero
  intro x hx
  rcases List.mem_map.mp hx with ⟨e, he, rfl⟩
  have : ¬ e.stockSymbol = some s := by
    intro hc
    exact h ((mem_symbolsOf es s).mpr ⟨e, he, hc⟩)
  simp only [beq_iff_eq]
  rw [if_neg (by simpa using this)]

theorem find?_groupRow_none (A : String → ℚ) (syms : List String) (s : String)
    (h : s ∉ syms) :
    (syms.filterMap (fun t => if 0 < A t then some (t, A t) else none)).find?
      (fun p => p.1 == s) = none := by
  induction syms with
  | nil => rfl
  | cons t rest ih =>
    have hts : ¬ t = s := fun hc => h (hc ▸ List.mem_cons_self t rest)
    have hrest : s ∉ rest := fun hc => h (List.mem_cons_of_mem t hc)
    by_cases hpos : 0 < A t
    · rw [List.filterMap_cons]
      simp only [if_pos hpos]
      rw [List.find?_cons_of_neg _ (by simpa using hts)]
      exact ih hrest
    · rw [List.filterMap_cons]
      simp only [if_neg hpos]
      exact ih hrest

theorem find?_groupRow (A : String → ℚ) (syms : List String) (s : String)
    (hnd : syms.Nodup) (hcov : A s ≠ 0 → s ∈ syms) :
    ((syms.filterMap (fun t => if 0 < A t then some (t, A t) else none)).find?
        (fun p => p.1 == s)).map (fun p => p.2) =
      if 0 < A s then some (A s) else none := by
  induction syms with
  | nil =>
    have : A s = 0 := by
      by_contra hc
      exact absurd (hcov hc) (List.not_mem_nil s)
    simp [this]
  | cons t rest ih =>
    rcases List.nodup_cons.mp hnd with ⟨htrest, hndrest⟩
    by_cases hts : t = s
    · subst hts
      by_cases hpos : 0 < A t
      · rw [List.filterMap_cons]
        simp only [if_pos hpos]
        rw [List.find?_cons_of_pos _ (by simp)]
        rfl
      · rw [List.filterMap_cons]
        simp only [if_neg hpos]
        rw [find?_groupRow_none A rest t htrest]
        rfl
    · have hcov2 : A s ≠ 0 → s ∈ rest := by
        intro hc
        rcases List.mem_cons.mp (hcov hc) with h1 | h2
        · exact absurd h1.symm hts
        · exact h2
      by_cases hpos : 0 < A t
      · rw [List.filterMap_cons]
        simp only [if_pos hpos]
        rw [List.find?_cons_of_neg _ (by simpa using hts)]
        exact ih hndrest hcov2
      · rw [List.filterMap_cons]
        simp only [if_neg hpos]
        exact ih hndrest hcov2

theorem holdingsLookup_groupBySymbol (es : List LedgerEntry) (s : String) :
    holdingsLookup (groupBySymbol es) s =
      if 0 < sumQtyFor es s then some (sumQtyFor es s) else none := by
  unfold holdingsLookup groupBySymbol
  exact find?_groupRow (sumQtyFor es) (symbolsOf es) s (symbolsOf_nodup es)
    (fun h => by
      by_contra hc
      exact h (sumQtyFor_eq_zero_of_not_mem es s hc))

/-! ## Reversal lemmas -/

theorem filter_map_rev (es : List LedgerEntry) (rev : LedgerEntry → LedgerEntry)
    (p : LedgerEntry → Bool) (hp : ∀ e, p (rev e) = p e) :
    (es.map rev).filter p = (es.filter p).map rev := by
  rw [List.filter_map]
  congr 1
  apply List.filter_congr
  intro e _
  exact hp e

theorem sum_append_map_rev_zero (es : List LedgerEntry) (rev : LedgerEntry → LedgerEntry)
    (f : LedgerEntry → ℚ) (hf : ∀ e, f (rev e) = -(f e)) :
    ((es ++ es.map rev).map f).sum = 0 := by
  rw [sum_map_append, List.map_map]
  rw [sum_map_neg_pointwise es (f ∘ rev) f (fun e _ => hf e)]
  ring

theorem entriesOfGrant_reversal (st : DBState) (now : Int) (gid : Nat) :
    entriesOfGrant (CreateReversalEntries st now gid) gid =
      entriesOfGrant st gid ++ (entriesOfGrant st gid).map (fun e =>
        { e with quantity := -e.quantity, amountINR := -e.amountINR, timestamp := now }) := by
  have hent : (CreateReversalEntries st now gid).entries =
      st.entries ++ (st.entries.filter (fun e => e.rewardEventID == gid)).map (fun e =>
        { e with quantity := -e.quantity, amountINR := -e.amountINR, timestamp := now }) := rfl
  unfold entriesOfGrant
  rw [hent, List.filter_append]
  congr 1
  rw [filter_map_rev _ (fun e =>
    { e with quantity := -e.quantity, amountINR := -e.amountINR, timestamp := now })
    (fun e => e.rewardEventID == gid) (fun e => rfl)]
  congr 1
  apply List.filter_eq_self.mpr
  intro e he
  exact (List.mem_filter.mp he).2

theorem sumQtyFor_map_rev (l : List LedgerEntry) (now : Int) (sym : String) :
    sumQtyFor (l.map (fun e =>
      { e with quantity := -e.quantity, amountINR := -e.amountINR, timestamp := now })) sym =
    -(sumQtyFor l sym) := by
  rw [sumQtyFor_eq_sum_map, sumQtyFor_eq_sum_map, List.map_map]
  apply sum_map_neg_pointwise
  intro e _
  simp only [Function.comp]
  cases hb : (e.stockSymbol == some sym) <;> simp [hb]

theorem sumQtyFor_filter_eq (l : List LedgerEntry) (q : LedgerEntry → Bool) (sym : String) :
    sumQtyFor (l.filter q) sym =
      (l.map (fun e => if q e = true then
        (if (e.stockSymbol == some sym) = true then e.quantity else 0) else 0)).sum := by
  rw [sumQtyFor_eq_sum_map, sum_map_filter]

theorem holdings_reversal_cancel (st : DBState) (now : Int) (userId : Int) (gid : Nat)
    (cond : RewardEvent → Bool) (sym : String) :
    sumQtyFor (qualifyingEntries (CreateReversalEntries st now gid) userId cond) sym =
      sumQtyFor (qualifyingEntries
        { st with entries := st.entries.filter (fun e => !(e.rewardEventID == gid)) }
        userId cond) sym := by
  have hent : (CreateReversalEntries st now gid).entries =
      st.entries ++ (st.entries.filter (fun e => e.rewardEventID == gid)).map (fun e =>
        { e with quantity := -e.quantity, amountINR := -e.amountINR, timestamp := now }) := rfl
  have hrew : (CreateReversalEntries st now gid).rewards = st.rewards := rfl
  unfold qualifyingEntries
  rw [hent, hrew]
  simp only
  rw [List.filter_append, sumQtyFor_append,
    filter_map_rev _ (fun e =>
      { e with quantity := -e.quantity, amountINR := -e.amountINR, timestamp := now })
      (qualifies st.rewards userId cond) (fun e => rfl), sumQtyFor_map_rev,
    sumQtyFor_filter_eq, sumQtyFor_filter_eq, sumQtyFor_filter_eq]
  rw [sum_map_partition st.entries (fun e => e.rewardEventID == gid)
    (fun e => if qualifies st.rewards userId cond e = true then
      (if (e.stockSymbol == some sym) = true then e.quantity else 0) else 0)]
  ring

end Stocky

namespace Stocky

/-- C3 counterexample: at price 2450.50 and quantity 2.5 the fee
computation described by the claim — components rounded to 4 decimals
*before* summing — yields 8.2950, while the program's `CalculateFees`
total (the rounded sum of unrounded components) is 8.2949, the value the
claim itself asserts for the FEE entry; the claim's description of the
computation is therefore false at this input. -/
theorem claim_C3_counterexample :
    totalFeesSpecRounded (24505/10) (5/2) ≠ (CalculateFees (24505/10) (5/2)).total ∧
    totalFeesSpecRounded (24505/10) (5/2) = 8295/1000 ∧
    (CalculateFees (24505/10) (5/2)).total = 82949/10000 := by
  refine ⟨by decide, by decide, by decide⟩

/-- C3 amended: brokerage = min(0.03% × totalValue, ₹20), STT = 0.10% ×
totalValue, GST = 18% × brokerage, each component independently rounded
to 4 decimals in the returned values, but the total fee sums the
*unrounded* components and rounds the sum to 4 decimals; in particular
for price 2450.50 and quantity 2.5 the FEE entry amount is −8.2949. -/
theorem claim_C3_amended :
    (∀ pricePerShare quantity : ℚ,
      CalculateFees pricePerShare quantity =
        { brokerage := RoundINR (min (pricePerShare * quantity * (3/10000)) 20),
          stt := RoundINR (pricePerShare * quantity * (1/1000)),
          gst := RoundINR (min (pricePerShare * quantity * (3/10000)) 20 * (18/100)),
          total := RoundINR (min (pricePerShare * quantity * (3/10000)) 20 +
            pricePerShare * quantity * (1/1000) +
            min (pricePerShare * quantity * (3/10000)) 20 * (18/100)) }) ∧
    (createLedgerEntriesInTx ⟨0, 1, ("RELIANCE"), 5/2, 0, false⟩ (24505/10)).map
        (fun e => e.amountINR) = [612625/100, -(612625/100), -(82949/10000)] := by
  constructor
  · intro pricePerShare quantity
    unfold CalculateFees
    have hmin : min (pricePerShare * quantity * (3/10000)) 20 =
        if pricePerShare * quantity * (3/10000) > 20 then 20
        else pricePerShare * quantity * (3/10000) := by
      by_cases h : pricePerShare * quantity * (3/10000) > 20
      · rw [if_pos h, min_eq_right (le_of_lt h)]
      · rw [if_neg h, min_eq_left (le_of_not_lt h)]
    rw [hmin]
  · decide

/-- C9: the brokerage component of `CalculateFees` never exceeds ₹20;
for totalValue ≤ ₹66,666.67 it equals 0.03% × totalValue rounded to 4
decimals, and for larger totalValue it equals exactly ₹20. -/
theorem claim_C9 (pricePerShare quantity : ℚ) :
    (CalculateFees pricePerShare quantity).brokerage ≤ 20 ∧
    (pricePerShare * quantity ≤ 6666667/100 →
      (CalculateFees pricePerShare quantity).brokerage =
        RoundINR (pricePerShare * quantity * (3/10000))) ∧
    (6666667/100 < pricePerShare * quantity →
      (CalculateFees pricePerShare quantity).brokerage = 20) := by
  unfold CalculateFees
  simp only
  by_cases h : pricePerShare * quantity * (3/10000) > 20
  · rw [if_pos h]
    refine ⟨le_of_eq RoundINR_twenty, ?_, fun _ => RoundINR_twenty⟩
    intro hle
    rw [RoundINR_twenty, RoundINR_eq_twenty_between _ h (by nlinarith)]
  · rw [if_neg h]
    push_neg at h
    refine ⟨?_, fun _ => rfl, ?_⟩
    · have := roundDp_le_int 4 (pricePerShare * quantity * (3/10000)) 20 (by norm_num) (by exact_mod_cast h)
      unfold RoundINR
      exact_mod_cast this
    · intro hgt
      exfalso
      nlinarith

/-- C9 witness: at price 2450.50 and quantity 2.5 (totalValue 6126.25)
the brokerage is the rounded 0.03% slice, 1.8379; at price 100000 and
quantity 1 it is exactly 20. -/
theorem claim_C9_witness :
    (6126.25 : ℚ) = (24505/10 : ℚ) * (5/2) ∧
    (CalculateFees (24505/10) (5/2)).brokerage = RoundINR ((24505/10) * (5/2) * (3/10000)) ∧
    (CalculateFees 100000 1).brokerage = 20 := by
  refine ⟨by norm_num, (claim_C9 (24505/10) (5/2)).2.1 (by norm_num),
    (claim_C9 100000 1).2.2 (by norm_num)⟩

/-- Helper for C4: reversing a grant `n` times doubles its entry set each
time, and from the first reversal on the net quantity and net amount over
the grant's entries are zero. -/
theorem reverseNTimes_length_sum (st : DBState) (gid : Nat) (nows : List Int) :
    (entriesOfGrant (reverseNTimes st gid nows) gid).length =
      (entriesOfGrant st gid).length * 2 ^ nows.length ∧
    (1 ≤ nows.length →
      ((entriesOfGrant (reverseNTimes st gid nows) gid).map (fun e => e.quantity)).sum = 0 ∧
      ((entriesOfGrant (reverseNTimes st gid nows) gid).map (fun e => e.amountINR)).sum = 0) := by
  induction nows generalizing st with
  | nil =>
    refine ⟨by simp [reverseNTimes], ?_⟩
    intro h
    exact absurd h (by simp)
  | cons now rest ih =>
    have hrev : reverseNTimes st gid (now :: rest) =
        reverseNTimes (CreateReversalEntries st now gid) gid rest := rfl
    rw [hrev]
    rcases ih (CreateReversalEntries st now gid) with ⟨hlen, hsum⟩
    constructor
    · rw [hlen, entriesOfGrant_reversal]
      simp only [List.length_append, List.length_map, List.length_cons]
      ring
    · intro _
      cases rest with
      | nil =>
        have hfin : reverseNTimes (CreateReversalEntries st now gid) gid [] =
            CreateReversalEntries st now gid := rfl
        rw [hfin, entriesOfGrant_reversal]
        exact ⟨sum_append_map_rev_zero _ _ _ (fun e => rfl),
          sum_append_map_rev_zero _ _ _ (fun e => rfl)⟩
      | cons now2 rest2 => exact hsum (by simp)

/-- C4 counterexample: a grant with its 3 original entries, reversed
twice.  `CreateReversalEntries` fetches *all* entries carrying the grant
id, so the second invocation negates the 6 existing entries and appends 6
rows, leaving 12 — not the 3 + 3·2 = 9 entries the claim predicts, and
the second reversal's rows are not the negation of the original 3-entry
set. -/
theorem claim_C4_counterexample :
    (entriesOfGrant
        (CreateReversalEntries
          (CreateReversalEntries
            ⟨[⟨0, 1, ("A"), 1, 0, false⟩],
              createLedgerEntriesInTx ⟨0, 1, ("A"), 1, 0, false⟩ 100, [], 1, ⟨[], []⟩⟩
            10 0)
          20 0)
        0).length = 12 ∧
    ¬ (entriesOfGrant
        (CreateReversalEntries
          (CreateReversalEntries
            ⟨[⟨0, 1, ("A"), 1, 0, false⟩],
              createLedgerEntriesInTx ⟨0, 1, ("A"), 1, 0, false⟩ 100, [], 1, ⟨[], []⟩⟩
            10 0)
          20 0)
        0).length = 3 + 3 * 2 := by
  exact ⟨by decide, by decide⟩

/-- C4 amended: each invocation of the reversal negates *all* entries
currently recorded for the grant (originals and earlier reversals
alike), so a grant that starts with its 3 original entries has 3·2ⁿ
entries after n invocations; from the first invocation on, the net
quantity and the net amount over the grant's entries are zero, so a
second invocation appends rows but does not over-correct the net. -/
theorem claim_C4_amended (st : DBState) (gid : Nat) (nows : List Int)
    (h3 : (entriesOfGrant st gid).length = 3) :
    (entriesOfGrant (reverseNTimes st gid nows) gid).length = 3 * 2 ^ nows.length ∧
    (1 ≤ nows.length →
      ((entriesOfGrant (reverseNTimes st gid nows) gid).map (fun e => e.quantity)).sum = 0 ∧
      ((entriesOfGrant (reverseNTimes st gid nows) gid).map (fun e => e.amountINR)).sum = 0) := by
  have h := reverseNTimes_length_sum st gid nows
  rw [h3] at h
  exact h

/-- C4 amended witness: the two-reversal run on a concrete grant has
3·2² = 12 entries and zero net quantity and amount. -/
theorem claim_C4_amended_witness :
    (entriesOfGrant
        ⟨[⟨0, 1, ("A"), 1, 0, false⟩],
          createLedgerEntriesInTx ⟨0, 1, ("A"), 1, 0, false⟩ 100, [], 1, ⟨[], []⟩⟩
        0).length = 3 ∧
    ((entriesOfGrant
        (reverseNTimes
          ⟨[⟨0, 1, ("A"), 1, 0, false⟩],
            createLedgerEntriesInTx ⟨0, 1, ("A"), 1, 0, false⟩ 100, [], 1, ⟨[], []⟩⟩
          0 [10, 20])
        0).length = 3 * 2 ^ (2 : ℕ) ∧
      (1 ≤ ([10, 20] : List Int).length →
        ((entriesOfGrant
            (reverseNTimes
              ⟨[⟨0, 1, ("A"), 1, 0, false⟩],
                createLedgerEntriesInTx ⟨0, 1, ("A"), 1, 0, false⟩ 100, [], 1, ⟨[], []⟩⟩
              0 [10, 20])
            0).map (fun e => e.quantity)).sum = 0 ∧
        ((entriesOfGrant
            (reverseNTimes
              ⟨[⟨0, 1, ("A"), 1, 0, false⟩],
                createLedgerEntriesInTx ⟨0, 1, ("A"), 1, 0, false⟩ 100, [], 1, ⟨[], []⟩⟩
              0 [10, 20])
            0).map (fun e => e.amountINR)).sum = 0)) :=
  ⟨by decide,
    claim_C4_amended
      ⟨[⟨0, 1, ("A"), 1, 0, false⟩],
        createLedgerEntriesInTx ⟨0, 1, ("A"), 1, 0, false⟩ 100, [], 1, ⟨[], []⟩⟩
      0 [10, 20] (by decide)⟩

/-- C5: reversing a grant that has exactly its 3 original entries gives
every original entry a counterpart with negated quantity and amount, the
per-kind quantity and amount sums over the grant's entries become zero,
and the user's holdings equal the holdings computed without the grant's
entries — zero net contribution from the grant. -/
theorem claim_C5 (st : DBState) (now : Int) (userId : Int) (g : RewardEvent) (p : ℚ)
    (sym : String)
    (hfind : st.rewards.find? (fun r => r.id == g.id) = some g)
    (hlive : g.deleted = false) (huser : g.userId = userId)
    (hentries : entriesOfGrant st g.id = createLedgerEntriesInTx g p) :
    (entriesOfGrant (CreateReversalEntries st now g.id) g.id =
      entriesOfGrant st g.id ++ (entriesOfGrant st g.id).map (fun e =>
        { e with quantity := -e.quantity, amountINR := -e.amountINR, timestamp := now })) ∧
    (∀ k : EntryType,
      (((entriesOfGrant (CreateReversalEntries st now g.id) g.id).filter
          (fun e => decide (e.entryType = k))).map (fun e => e.quantity)).sum = 0 ∧
      (((entriesOfGrant (CreateReversalEntries st now g.id) g.id).filter
          (fun e => decide (e.entryType = k))).map (fun e => e.amountINR)).sum = 0) ∧
    holdingsLookup (GetUserStockHoldings (CreateReversalEntries st now g.id) userId) sym =
      holdingsLookup
        (GetUserStockHoldings
          { st with entries := st.entries.filter (fun e => !(e.rewardEventID == g.id)) }
          userId) sym := by
  refine ⟨entriesOfGrant_reversal st now g.id, ?_, ?_⟩
  · intro k
    rw [entriesOfGrant_reversal, List.filter_append,
      filter_map_rev _ (fun e =>
        { e with quantity := -e.quantity, amountINR := -e.amountINR, timestamp := now })
        (fun e => decide (e.entryType = k)) (fun e => rfl)]
    exact ⟨sum_append_map_rev_zero _ _ _ (fun e => rfl),
      sum_append_map_rev_zero _ _ _ (fun e => rfl)⟩
  · unfold GetUserStockHoldings
    rw [holdingsLookup_groupBySymbol, holdingsLookup_groupBySymbol,
      holdings_reversal_cancel st now userId g.id (fun _ => true) sym]

/-- C5 witness: a concrete one-grant store reversed once. -/
theorem claim_C5_witness :
    (⟨[⟨0, 1, ("A"), 1, 0, false⟩],
        createLedgerEntriesInTx ⟨0, 1, ("A"), 1, 0, false⟩ 100, [], 1,
        ⟨[], []⟩⟩ : DBState).rewards.find?
      (fun r => r.id == (⟨0, 1, ("A"), 1, 0, false⟩ : RewardEvent).id) =
        some ⟨0, 1, ("A"), 1, 0, false⟩ ∧
    holdingsLookup
        (GetUserStockHoldings
          (CreateReversalEntries
            ⟨[⟨0, 1, ("A"), 1, 0, false⟩],
              createLedgerEntriesInTx ⟨0, 1, ("A"), 1, 0, false⟩ 100, [], 1, ⟨[], []⟩⟩
            50 0)
          1) ("A") =
      holdingsLookup
        (GetUserStockHoldings
          ⟨[⟨0, 1, ("A"), 1, 0, false⟩], [], [], 1, ⟨[], []⟩⟩ 1) ("A") :=
  ⟨by decide,
    (claim_C5
      ⟨[⟨0, 1, ("A"), 1, 0, false⟩],
        createLedgerEntriesInTx ⟨0, 1, ("A"), 1, 0, false⟩ 100, [], 1, ⟨[], []⟩⟩
      50 1 ⟨0, 1, ("A"), 1, 0, false⟩ 100 ("A") (by decide) (by decide) (by decide)
      (by decide)).2.2.trans (by decide)⟩

/-- C10: holdings-as-of joins entries to their owning grant and filters
on the grant's event timestamp, and reversal rows carry the original
grant's id, so after a reversal the as-of holdings at any instant `t` at
or after the grant's event timestamp — including instants before the
reversal was performed — equal the holdings computed without the grant's
entries: the reversal retroactively removes the grant from historical
valuations. -/
theorem claim_C10 (st : DBState) (now : Int) (userId : Int) (g : RewardEvent) (t : Int)
    (sym : String)
    (hfind : st.rewards.find? (fun r => r.id == g.id) = some g)
    (hlive : g.deleted = false) (huser : g.userId = userId)
    (ht : g.timestamp ≤ t) :
    holdingsLookup
        (GetUserStockHoldingsUpToDate (CreateReversalEntries st now g.id) userId t) sym =
      holdingsLookup
        (GetUserStockHoldingsUpToDate
          { st with entries := st.entries.filter (fun e => !(e.rewardEventID == g.id)) }
          userId t) sym := by
  unfold GetUserStockHoldingsUpToDate
  rw [holdingsLookup_groupBySymbol, holdingsLookup_groupBySymbol,
    holdings_reversal_cancel st now userId g.id (fun r => decide (r.timestamp ≤ t)) sym]

/-- GetCurrentPrice only touches the price table and the generator: the
grants, the ledger and the id sequence are unchanged. -/
theorem GetCurrentPrice_preserves (st : DBState) (now : Int) (symbol : String) :
    (GetCurrentPrice st now symbol).2.rewards = st.rewards ∧
    (GetCurrentPrice st now symbol).2.entries = st.entries ∧
    (GetCurrentPrice st now symbol).2.nextId = st.nextId := by
  unfold GetCurrentPrice
  cases hm : latestPriceBy st.prices (fun ph => ph.stockSymbol == symbol) with
  | none =>
    rcases hG : GeneratePrice st.gen symbol with ⟨pr, g⟩
    simp [hG, SavePrice]
  | some ph =>
    by_cases hs : now - ph.timestamp > 2 * nsPerHour
    · rcases hG : GeneratePrice st.gen symbol with ⟨pr, g⟩
      simp [hs, hG, SavePrice]
    · simp [hs]

/-- C2: a successful CreateReward appends exactly 3 ledger entries for
the new grant — STOCK (quantity q, amount round4(p·q)), CASH (0,
−round4(p·q)), FEE (0, −totalFees) — where p is the looked-up price and
q the 6-decimal-rounded quantity; the amounts of the grant's entries sum
to −totalFees, the stock value cancelling between the STOCK and CASH
legs. -/
theorem claim_C2 (st : DBState) (now : Int) (userId : Int) (symbol : String)
    (quantity0 : ℚ) (timestamp : Int) (st1 : DBState)
    (hwf : ∀ e ∈ st.entries, e.rewardEventID < st.nextId)
    (h : CreateReward st now userId symbol quantity0 timestamp = .ok st1) :
    st1.entries = st.entries ++
      [⟨st.nextId, EntryType.STOCK, some symbol, RoundQuantity quantity0,
          RoundINR ((GetCurrentPrice st now symbol).1 * RoundQuantity quantity0), timestamp⟩,
        ⟨st.nextId, EntryType.CASH, some symbol, 0,
          -RoundINR ((GetCurrentPrice st now symbol).1 * RoundQuantity quantity0), timestamp⟩,
        ⟨st.nextId, EntryType.FEE, some symbol, 0,
          -(CalculateFees (GetCurrentPrice st now symbol).1 (RoundQuantity quantity0)).total,
          timestamp⟩] ∧
    ((entriesOfGrant st1 st.nextId).map (fun e => e.amountINR)).sum =
      -(CalculateFees (GetCurrentPrice st now symbol).1 (RoundQuantity quantity0)).total := by
  simp only [CreateReward] at h
  by_cases h1 : ValidateStockSymbol symbol = false
  · rw [if_pos h1] at h
    exact absurd h (by simp)
  · rw [if_neg h1] at h
    by_cases h2 : ValidateQuantity quantity0 = false
    · rw [if_pos h2] at h
      exact absurd h (by simp)
    · rw [if_neg h2] at h
      by_cases h3 :
          st.rewards.any (matchesTuple userId symbol (RoundQuantity quantity0) timestamp) = true
      · rw [if_pos h3] at h
        exact absurd h (by simp)
      · rw [if_neg h3] at h
        rcases hP : GetCurrentPrice st now symbol with ⟨pricePerShare, stp⟩
        rw [hP] at h
        have hnext : stp.nextId = st.nextId := by
          have := (GetCurrentPrice_preserves st now symbol).2.2
          rw [hP] at this
          exact this
        have hent : stp.entries = st.entries := by
          have := (GetCurrentPrice_preserves st now symbol).2.1
          rw [hP] at this
          exact this
        have hst1 := Except.ok.inj h
        have hfst : (GetCurrentPrice st now symbol).1 = pricePerShare := by rw [hP]
        have hmain : st1.entries = st.entries ++
            createLedgerEntriesInTx
              ⟨st.nextId, userId, symbol, RoundQuantity quantity0, timestamp, false⟩
              pricePerShare := by
          rw [← hst1]
          simp only [createLedgerEntriesInTx]
          rw [hent, hnext]
        constructor
        · rw [hmain]
          rfl
        · have hof : entriesOfGrant st1 st.nextId =
              createLedgerEntriesInTx
                ⟨st.nextId, userId, symbol, RoundQuantity quantity0, timestamp, false⟩
                pricePerShare := by
            unfold entriesOfGrant
            rw [hmain, List.filter_append]
            have hold : st.entries.filter (fun e => e.rewardEventID == st.nextId) = [] := by
              apply List.filter_eq_nil_iff.mpr
              intro e he
              simp only [beq_iff_eq]
              exact Nat.ne_of_lt (hwf e he)
            rw [hold]
            simp [createLedgerEntriesInTx]
          rw [hof, show ((pricePerShare, stp) : ℚ × DBState).1 = pricePerShare from rfl]
          simp only [createLedgerEntriesInTx, List.map_cons, List.map_nil, List.sum_cons,
            List.sum_nil]
          ring

/-- C2 witness: a concrete successful call on an empty store. -/
theorem claim_C2_witness :
    (applyCreateReward
        ⟨[], [], [], 0, ⟨[(("RELIANCE"), 24505/10)], [0]⟩⟩
        (2 * nsPerDay) 1 ("RELIANCE") (5/2) 100).entries =
      [] ++
      [⟨0, EntryType.STOCK, some ("RELIANCE"), RoundQuantity (5/2),
          RoundINR ((GetCurrentPrice
            ⟨[], [], [], 0, ⟨[(("RELIANCE"), 24505/10)], [0]⟩⟩
            (2 * nsPerDay) ("RELIANCE")).1 * RoundQuantity (5/2)), 100⟩,
        ⟨0, EntryType.CASH, some ("RELIANCE"), 0,
          -RoundINR ((GetCurrentPrice
            ⟨[], [], [], 0, ⟨[(("RELIANCE"), 24505/10)], [0]⟩⟩
            (2 * nsPerDay) ("RELIANCE")).1 * RoundQuantity (5/2)), 100⟩,
        ⟨0, EntryType.FEE, some ("RELIANCE"), 0,
          -(CalculateFees (GetCurrentPrice
              ⟨[], [], [], 0, ⟨[(("RELIANCE"), 24505/10)], [0]⟩⟩
              (2 * nsPerDay) ("RELIANCE")).1 (RoundQuantity (5/2))).total, 100⟩] := by
  have h := claim_C2 ⟨[], [], [], 0, ⟨[(("RELIANCE"), 24505/10)], [0]⟩⟩
    (2 * nsPerDay) 1 ("RELIANCE") (5/2) 100
    (applyCreateReward ⟨[], [], [], 0, ⟨[(("RELIANCE"), 24505/10)], [0]⟩⟩
      (2 * nsPerDay) 1 ("RELIANCE") (5/2) 100)
    (by decide) (by decide)
  exact h.1

/-! ## Price staleness (C7) -/

theorem latestPriceBy_step_some (keep : PriceHistory → Bool) (acc : Option PriceHistory)
    (ph : PriceHistory) (b : PriceHistory)
    (h : (if keep ph then
        match acc with
        | none => some ph
        | some b => if ph.timestamp > b.timestamp then some ph else acc
      else acc) = some b) :
    (b = ph ∧ keep ph = true) ∨ acc = some b := by
  by_cases hk : keep ph = true
  · rw [if_pos hk] at h
    cases acc with
    | none => exact Or.inl ⟨(Option.some.inj h).symm, hk⟩
    | some c =>
      have h2 : (if ph.timestamp > c.timestamp then some ph else some c) = some b := h
      by_cases hts : ph.timestamp > c.timestamp
      · rw [if_pos hts] at h2
        exact Or.inl ⟨(Option.some.inj h2).symm, hk⟩
      · rw [if_neg hts] at h2
        exact Or.inr h2
  · rw [if_neg hk] at h
    exact Or.inr h

theorem latestPriceBy_mem_aux (keep : PriceHistory → Bool) (l : List PriceHistory) :
    ∀ (acc : Option PriceHistory) (ph : PriceHistory),
      l.foldl
        (fun acc ph =>
          if keep ph then
            match acc with
            | none => some ph
            | some b => if ph.timestamp > b.timestamp then some ph else acc
          else acc) acc = some ph →
      (ph ∈ l ∧ keep ph = true) ∨ acc = some ph := by
  induction l with
  | nil => exact fun acc ph h => Or.inr h
  | cons hd tl ih =>
    intro acc ph h
    rw [List.foldl_cons] at h
    rcases ih _ ph h with ⟨hmem, hk⟩ | hstep
    · exact Or.inl ⟨List.mem_cons_of_mem hd hmem, hk⟩
    · rcases latestPriceBy_step_some keep acc hd ph hstep with ⟨heq, hk⟩ | hacc
      · subst heq
        exact Or.inl ⟨List.mem_cons_self _ tl, hk⟩
      · exact Or.inr hacc

theorem latestPriceBy_mem (l : List PriceHistory) (keep : PriceHistory → Bool)
    (ph : PriceHistory) (h : latestPriceBy l keep = some ph) :
    ph ∈ l ∧ keep ph = true := by
  rcases latestPriceBy_mem_aux keep l none ph h with hres | hnone
  · exact hres
  · exact absurd hnone (by simp)

theorem latestPriceBy_step_le (keep : PriceHistory → Bool) (acc : Option PriceHistory)
    (hd : PriceHistory) (c : PriceHistory)
    (h : (if keep hd then
            match acc with
            | none => some hd
            | some b => if hd.timestamp > b.timestamp then some hd else acc
          else acc) = some c) :
    (keep hd = true → hd.timestamp ≤ c.timestamp) ∧
    (∀ b, acc = some b → b.timestamp ≤ c.timestamp) := by
  constructor
  · intro hk
    rw [if_pos hk] at h
    cases hacc : acc with
    | none =>
      rw [hacc] at h
      have hc : hd = c := Option.some.inj h
      subst hc
      exact le_refl _
    | some b =>
      rw [hacc] at h
      have h2 : (if hd.timestamp > b.timestamp then some hd else some b) = some c := h
      by_cases hts : hd.timestamp > b.timestamp
      · have hc : hd = c := Option.some.inj (by rwa [if_pos hts] at h2)
        subst hc
        exact le_refl _
      · have hc : b = c := Option.some.inj (by rwa [if_neg hts] at h2)
        subst hc
        exact le_of_not_lt hts
  · intro b hb
    rw [hb] at h
    by_cases hk : keep hd = true
    · rw [if_pos hk] at h
      have h2 : (if hd.timestamp > b.timestamp then some hd else some b) = some c := h
      by_cases hts : hd.timestamp > b.timestamp
      · have hc : hd = c := Option.some.inj (by rwa [if_pos hts] at h2)
        subst hc
        exact le_of_lt hts
      · have hc : b = c := Option.some.inj (by rwa [if_neg hts] at h2)
        subst hc
        exact le_refl _
    · rw [if_neg hk] at h
      have hc : b = c := Option.some.inj h
      subst hc
      exact le_refl _

theorem latestPriceBy_step_none (keep : PriceHistory → Bool) (acc : Option PriceHistory)
    (hd : PriceHistory)
    (h : (if keep hd then
            match acc with
            | none => some hd
            | some b => if hd.timestamp > b.timestamp then some hd else acc
          else acc) = none) :
    acc = none ∧ keep hd = false := by
  by_cases hk : keep hd = true
  · rw [if_pos hk] at h
    cases hacc : acc with
    | none =>
      rw [hacc] at h
      exact absurd h (by simp)
    | some b =>
      rw [hacc] at h
      have h2 : (if hd.timestamp > b.timestamp then some hd else some b) = none := h
      by_cases hts : hd.timestamp > b.timestamp
      · rw [if_pos hts] at h2
        exact absurd h2 (by simp)
      · rw [if_neg hts] at h2
        exact absurd h2 (by simp)
  · rw [if_neg hk] at h
    refine ⟨h, ?_⟩
    cases hkk : keep hd
    · rfl
    · exact absurd hkk hk

theorem latestPriceBy_max_aux (keep : PriceHistory → Bool) (l : List PriceHistory) :
    ∀ (acc : Option PriceHistory) (ph : PriceHistory),
      l.foldl
        (fun acc ph =>
          if keep ph then
            match acc with
            | none => some ph
            | some b => if ph.timestamp > b.timestamp then some ph else acc
          else acc) acc = some ph →
      (∀ ph' ∈ l, keep ph' = true → ph'.timestamp ≤ ph.timestamp) ∧
      (∀ b, acc = some b → b.timestamp ≤ ph.timestamp) := by
  induction l with
  | nil =>
    intro acc ph h
    rw [List.foldl_nil] at h
    refine ⟨by simp, ?_⟩
    intro b hb
    rw [hb] at h
    have hc : b = ph := Option.some.inj h
    subst hc
    exact le_refl _
  | cons hd tl ih =>
    intro acc ph h
    rw [List.foldl_cons] at h
    rcases ih _ ph h with ⟨h1, h2⟩
    constructor
    · intro ph' hmem hk
      rcases List.mem_cons.mp hmem with heq | hmem2
      · subst heq
        rcases Option.eq_none_or_eq_some (if keep ph' then
            match acc with
            | none => some ph'
            | some b => if ph'.timestamp > b.timestamp then some ph' else acc
          else acc) with hstep | ⟨c, hstep⟩
        · have hbad := (latestPriceBy_step_none keep acc ph' hstep).2
          rw [hk] at hbad
          exact absurd hbad (by simp)
        · have hle := (latestPriceBy_step_le keep acc ph' c hstep).1 hk
          exact le_trans hle (h2 c hstep)
      · exact h1 ph' hmem2 hk
    · intro b hb
      rcases Option.eq_none_or_eq_some (if keep hd then
          match acc with
          | none => some hd
          | some b => if hd.timestamp > b.timestamp then some hd else acc
        else acc) with hstep | ⟨c, hstep⟩
      · have hbad := (latestPriceBy_step_none keep acc hd hstep).1
        rw [hb] at hbad
        exact absurd hbad (by simp)
      · have hle := (latestPriceBy_step_le keep acc hd c hstep).2 b hb
        exact le_trans hle (h2 c hstep)

/-- The sample `latestPriceBy` returns is indeed the most recent one
among the rows satisfying the filter. -/
theorem latestPriceBy_max (l : List PriceHistory) (keep : PriceHistory → Bool)
    (ph : PriceHistory) (h : latestPriceBy l keep = some ph) :
    ∀ ph' ∈ l, keep ph' = true → ph'.timestamp ≤ ph.timestamp :=
  (latestPriceBy_max_aux keep l none ph h).1

/-- The price `GeneratePrice` yields is already rounded to 4 decimals,
so persisting it stores exactly the returned value. -/
theorem RoundINR_GeneratePrice (g : PriceGenerator) (symbol : String) :
    RoundINR (GeneratePrice g symbol).1 = (GeneratePrice g symbol).1 := by
  unfold GeneratePrice
  cases hl : lookupBase g.basePrices symbol with
  | none => exact roundDp_roundDp 4 _
  | some b => exact roundDp_roundDp 4 _

/-- C7: when the most recent stored sample for a symbol is at most 2
hours old, `GetCurrentPrice` returns it and leaves the store untouched;
when the most recent sample is older than 2 hours — a 3-hour-old sample
in particular — or when no sample exists, it instead returns the freshly
generated price and persists it as a new row stamped `now`, so the stale
sample is never returned. -/
theorem claim_C7 (st : DBState) (now : Int) (symbol : String) :
    (∀ ph, latestPriceBy st.prices (fun p => p.stockSymbol == symbol) = some ph →
      (∀ ph' ∈ st.prices, ph'.stockSymbol = symbol → ph'.timestamp ≤ ph.timestamp) ∧
      (now - ph.timestamp ≤ 2 * nsPerHour →
        GetCurrentPrice st now symbol = (ph.priceINR, st)) ∧
      (now - ph.timestamp > 2 * nsPerHour →
        (GetCurrentPrice st now symbol).1 = (GeneratePrice st.gen symbol).1 ∧
        (GetCurrentPrice st now symbol).2.prices =
          st.prices ++ [⟨symbol, (GetCurrentPrice st now symbol).1, now⟩])) ∧
    (latestPriceBy st.prices (fun p => p.stockSymbol == symbol) = none →
      (GetCurrentPrice st now symbol).1 = (GeneratePrice st.gen symbol).1 ∧
      (GetCurrentPrice st now symbol).2.prices =
        st.prices ++ [⟨symbol, (GetCurrentPrice st now symbol).1, now⟩]) := by
  constructor
  · intro ph hsome
    have hval : GetCurrentPrice st now symbol =
        (if now - ph.timestamp > 2 * nsPerHour then
          ((GeneratePrice st.gen symbol).1,
            SavePrice { st with gen := (GeneratePrice st.gen symbol).2 } now symbol
              (GeneratePrice st.gen symbol).1)
        else (ph.priceINR, st)) := by
      unfold GetCurrentPrice
      rw [hsome]
    refine ⟨?_, ?_, ?_⟩
    · intro ph' hmem hsym
      exact latestPriceBy_max st.prices _ ph hsome ph' hmem (by simp [hsym])
    · intro hfresh
      rw [hval, if_neg (not_lt.mpr hfresh)]
    · intro hstale
      rw [hval, if_pos hstale]
      refine ⟨rfl, ?_⟩
      show st.prices ++ [⟨symbol, RoundINR (GeneratePrice st.gen symbol).1, now⟩] =
        st.prices ++ [⟨symbol, (GeneratePrice st.gen symbol).1, now⟩]
      rw [RoundINR_GeneratePrice]
  · intro hnone
    have hval : GetCurrentPrice st now symbol =
        ((GeneratePrice st.gen symbol).1,
          SavePrice { st with gen := (GeneratePrice st.gen symbol).2 } now symbol
            (GeneratePrice st.gen symbol).1) := by
      unfold GetCurrentPrice
      rw [hnone]
    rw [hval]
    refine ⟨rfl, ?_⟩
    show st.prices ++ [⟨symbol, RoundINR (GeneratePrice st.gen symbol).1, now⟩] =
      st.prices ++ [⟨symbol, (GeneratePrice st.gen symbol).1, now⟩]
    rw [RoundINR_GeneratePrice]

/-- C7 witness: a 3-hour-old TCS sample is not returned; the call
returns the freshly generated price (base 3680.75, variation 0) and
appends it to the price table stamped `now`. -/
theorem claim_C7_witness :
    latestPriceBy
        ([⟨("TCS"), 367075/100, 0⟩] : List PriceHistory)
        (fun p => p.stockSymbol == ("TCS")) = some ⟨("TCS"), 367075/100, 0⟩ ∧
    3 * nsPerHour - (0 : Int) > 2 * nsPerHour ∧
    ((GetCurrentPrice
        ⟨[], [], [⟨("TCS"), 367075/100, 0⟩], 0, ⟨[(("TCS"), 367075/100)], [0]⟩⟩
        (3 * nsPerHour) ("TCS")).1 =
      (GeneratePrice ⟨[(("TCS"), 367075/100)], [0]⟩ ("TCS")).1 ∧
    (GetCurrentPrice
        ⟨[], [], [⟨("TCS"), 367075/100, 0⟩], 0, ⟨[(("TCS"), 367075/100)], [0]⟩⟩
        (3 * nsPerHour) ("TCS")).2.prices =
      [⟨("TCS"), 367075/100, 0⟩] ++
        [⟨("TCS"),
          (GetCurrentPrice
            ⟨[], [], [⟨("TCS"), 367075/100, 0⟩], 0, ⟨[(("TCS"), 367075/100)], [0]⟩⟩
            (3 * nsPerHour) ("TCS")).1, 3 * nsPerHour⟩]) :=
  ⟨by decide, by decide,
    ((claim_C7
        ⟨[], [], [⟨("TCS"), 367075/100, 0⟩], 0, ⟨[(("TCS"), 367075/100)], [0]⟩⟩
        (3 * nsPerHour) ("TCS")).1
      ⟨("TCS"), 367075/100, 0⟩ (by decide)).2.2 (by decide)⟩

/-- C1: submitting the identical (user, symbol, rounded quantity,
timestamp) tuple twice yields one success and one DuplicateGrant: when no
live grant matches the tuple, the first call succeeds, the second call
fails with the duplicate error and changes nothing, exactly one live
grant matches the tuple afterwards, and that grant has exactly 3 ledger
entries (not 6); since the failed call leaves the state untouched, the
holdings after both attempts are the holdings after the single
success. -/
theorem claim_C1 (st : DBState) (now now2 : Int) (userId : Int) (symbol : String)
    (quantity0 : ℚ) (timestamp : Int)
    (hwfr : ∀ r ∈ st.rewards, r.id < st.nextId)
    (hwfe : ∀ e ∈ st.entries, e.rewardEventID < st.nextId)
    (hsym : ValidateStockSymbol symbol = true)
    (hqty : ValidateQuantity quantity0 = true)
    (hnodup : liveGrantsMatching st userId symbol (RoundQuantity quantity0) timestamp = []) :
    ∃ st1, CreateReward st now userId symbol quantity0 timestamp = .ok st1 ∧
      CreateReward st1 now2 userId symbol quantity0 timestamp = .error .duplicateReward ∧
      applyCreateReward st1 now2 userId symbol quantity0 timestamp = st1 ∧
      liveGrantsMatching st1 userId symbol (RoundQuantity quantity0) timestamp =
        [⟨st.nextId, userId, symbol, RoundQuantity quantity0, timestamp, false⟩] ∧
      (∀ r ∈ liveGrantsMatching st1 userId symbol (RoundQuantity quantity0) timestamp,
        (entriesOfGrant st1 r.id).length = 3) := by
  have hnodup' : ∀ r ∈ st.rewards,
      ¬ matchesTuple userId symbol (RoundQuantity quantity0) timestamp r = true := by
    intro r hr
    exact List.filter_eq_nil_iff.mp hnodup r hr
  have hany : st.rewards.any
      (matchesTuple userId symbol (RoundQuantity quantity0) timestamp) = false := by
    rw [List.any_eq_false]
    exact hnodup'
  have hfilter : st.rewards.filter
      (matchesTuple userId symbol (RoundQuantity quantity0) timestamp) = [] := hnodup
  rcases hP : GetCurrentPrice st now symbol with ⟨pricePerShare, stp⟩
  have hpres := GetCurrentPrice_preserves st now symbol
  rw [hP] at hpres
  have hrew : stp.rewards = st.rewards := hpres.1
  have hent : stp.entries = st.entries := hpres.2.1
  have hnext : stp.nextId = st.nextId := hpres.2.2
  have hdup : (stp.rewards ++
      [(⟨stp.nextId, userId, symbol, RoundQuantity quantity0, timestamp, false⟩ :
        RewardEvent)]).any
      (matchesTuple userId symbol (RoundQuantity quantity0) timestamp) = true := by
    simp [matchesTuple]
  refine ⟨{ stp with
      rewards := stp.rewards ++
        [⟨stp.nextId, userId, symbol, RoundQuantity quantity0, timestamp, false⟩],
      entries := stp.entries ++ createLedgerEntriesInTx
        ⟨stp.nextId, userId, symbol, RoundQuantity quantity0, timestamp, false⟩
        pricePerShare,
      nextId := stp.nextId + 1 }, ?_, ?_, ?_, ?_, ?_⟩
  case _ =>
    simp only [CreateReward]
    rw [if_neg (by simp [hsym]), if_neg (by simp [hqty]), if_neg (by simp [hany]), hP]
  case _ =>
    simp only [CreateReward]
    rw [if_neg (by simp [hsym]), if_neg (by simp [hqty]), if_pos hdup]
  case _ =>
    unfold applyCreateReward
    have hsecond : CreateReward
        { stp with
          rewards := stp.rewards ++
            [⟨stp.nextId, userId, symbol, RoundQuantity quantity0, timestamp, false⟩],
          entries := stp.entries ++ createLedgerEntriesInTx
            ⟨stp.nextId, userId, symbol, RoundQuantity quantity0, timestamp, false⟩
            pricePerShare,
          nextId := stp.nextId + 1 }
        now2 userId symbol quantity0 timestamp = .error .duplicateReward := by
      simp only [CreateReward]
      rw [if_neg (by simp [hsym]), if_neg (by simp [hqty]), if_pos hdup]
    rw [hsecond]
  case _ =>
    unfold liveGrantsMatching
    show (stp.rewards ++
        [(⟨stp.nextId, userId, symbol, RoundQuantity quantity0, timestamp, false⟩ :
          RewardEvent)]).filter
        (matchesTuple userId symbol (RoundQuantity quantity0) timestamp) = _
    rw [List.filter_append, hrew, hfilter, List.nil_append, hnext]
    rw [List.filter_cons]
    simp [matchesTuple]
  case _ =>
    intro r hr
    unfold liveGrantsMatching at hr
    rw [show ({ stp with
        rewards := stp.rewards ++
          [⟨stp.nextId, userId, symbol, RoundQuantity quantity0, timestamp, false⟩],
        entries := stp.entries ++ createLedgerEntriesInTx
          ⟨stp.nextId, userId, symbol, RoundQuantity quantity0, timestamp, false⟩
          pricePerShare,
        nextId := stp.nextId + 1 } : DBState).rewards = stp.rewards ++
          [(⟨stp.nextId, userId, symbol, RoundQuantity quantity0, timestamp, false⟩ :
            RewardEvent)]
      from rfl, List.filter_append, hrew, hfilter, List.nil_append] at hr
    have hrval : r = ⟨stp.nextId, userId, symbol, RoundQuantity quantity0, timestamp, false⟩ := by
      rcases List.mem_filter.mp hr with ⟨hmem, _⟩
      simpa using hmem
    subst hrval
    unfold entriesOfGrant
    show ((stp.entries ++ createLedgerEntriesInTx
        ⟨stp.nextId, userId, symbol, RoundQuantity quantity0, timestamp, false⟩
        pricePerShare).filter (fun e => e.rewardEventID == stp.nextId)).length = 3
    rw [List.filter_append, hent]
    have hold : st.entries.filter (fun e => e.rewardEventID == stp.nextId) = [] := by
      apply List.filter_eq_nil_iff.mpr
      intro e he
      rw [hnext]
      simp only [beq_iff_eq]
      exact Nat.ne_of_lt (hwfe e he)
    rw [hold, List.nil_append]
    simp [createLedgerEntriesInTx]

/-- C1 witness: a concrete double submission of (user 1, RELIANCE, 2.5,
t=100) against an empty store. -/
theorem claim_C1_witness :
    ValidateStockSymbol ("RELIANCE") = true ∧
    ValidateQuantity (5/2) = true ∧
    liveGrantsMatching ⟨[], [], [], 0, ⟨[(("RELIANCE"), 24505/10)], [0]⟩⟩
      1 ("RELIANCE") (RoundQuantity (5/2)) 100 = [] ∧
    (∃ st1, CreateReward ⟨[], [], [], 0, ⟨[(("RELIANCE"), 24505/10)], [0]⟩⟩
        (2 * nsPerDay) 1 ("RELIANCE") (5/2) 100 = .ok st1 ∧
      CreateReward st1 (2 * nsPerDay + 7) 1 ("RELIANCE") (5/2) 100 =
        .error .duplicateReward ∧
      applyCreateReward st1 (2 * nsPerDay + 7) 1 ("RELIANCE") (5/2) 100 = st1 ∧
      liveGrantsMatching st1 1 ("RELIANCE") (RoundQuantity (5/2)) 100 =
        [⟨0, 1, ("RELIANCE"), RoundQuantity (5/2), 100, false⟩] ∧
      (∀ r ∈ liveGrantsMatching st1 1 ("RELIANCE") (RoundQuantity (5/2)) 100,
        (entriesOfGrant st1 r.id).length = 3)) :=
  ⟨by decide, by decide, by decide,
    claim_C1 ⟨[], [], [], 0, ⟨[(("RELIANCE"), 24505/10)], [0]⟩⟩
      (2 * nsPerDay) (2 * nsPerDay + 7) 1 ("RELIANCE") (5/2) 100
      (by decide) (by decide) (by decide) (by decide) (by decide)⟩

/-- C8 counterexample: with holdings {A ↦ 1, B ↦ 2} and a price oracle
that fails for B, `GetPortfolio` does not return an error: it returns
success with B silently dropped (partial data), because the source logs
the price failure and `continue`s. -/
theorem claim_C8_counterexample :
    (fun s => if s == ("A") then Except.ok (10 : ℚ) else Except.error ()) ("B") =
      Except.error () ∧
    GetPortfolioF (.ok [(("A"), 1), (("B"), 2)])
        (fun s => if s == ("A") then Except.ok (10 : ℚ) else Except.error ()) =
      .ok ([(("A"), 1, 10, 10)], 10) := by
  exact ⟨by decide, by decide⟩

/-- C8 amended: a failure of the holdings fetch (or of the today's-
rewards fetch) makes statsToday and portfolio return an error, but a
failed price lookup never does — the symbol is skipped and the query
succeeds with partial data; in historicalDailyValue a failed per-day
holdings fetch skips that day's row and a failed price lookup skips the
symbol, the query itself never failing. -/
theorem claim_C8_amended :
    (∀ f, GetPortfolioF (.error ()) f = .error ()) ∧
    (∀ h f, GetStatsF (.error ()) h f = .error ()) ∧
    (∀ t f, GetStatsF (.ok t) (.error ()) f = .error ()) ∧
    (∀ h f, ∃ r, GetPortfolioF (.ok h) f = .ok r) ∧
    (∀ t h f, ∃ r, GetStatsF (.ok t) (.ok h) f = .ok r) ∧
    (∀ (dates : List Int) (holdingsAt : Int → Except Unit (List (String × ℚ)))
        (priceAt : String → Int → Except Unit ℚ),
      GetHistoricalINRF dates holdingsAt priceAt =
        dates.filterMap (fun date =>
          match holdingsAt (EndOfDayUTC date) with
          | .error _ => none
          | .ok holdings => some (date, RoundINR (holdings.foldl
              (fun (a : ℚ) p =>
                match priceAt p.1 (EndOfDayUTC date) with
                | .error _ => a
                | .ok price => a + price * p.2)
              0)))) := by
  refine ⟨fun f => rfl, fun h f => rfl, fun t f => rfl, fun h f => ⟨_, rfl⟩,
    fun t h f => ⟨_, rfl⟩, ?_⟩
  intro dates holdingsAt priceAt
  unfold GetHistoricalINRF
  have general : ∀ (ds : List Int) (acc : List (Int × ℚ)),
      ds.foldl
        (fun acc date =>
          let endOfDate := EndOfDayUTC date
          match holdingsAt endOfDate with
          | .error _ => acc
          | .ok holdings =>
            let totalValue := holdings.foldl
              (fun (a : ℚ) p =>
                match priceAt p.1 endOfDate with
                | .error _ => a
                | .ok price => a + price * p.2)
              0
            acc ++ [(date, RoundINR totalValue)])
        acc =
      acc ++ ds.filterMap (fun date =>
        match holdingsAt (EndOfDayUTC date) with
        | .error _ => none
        | .ok holdings => some (date, RoundINR (holdings.foldl
            (fun (a : ℚ) p =>
              match priceAt p.1 (EndOfDayUTC date) with
              | .error _ => a
              | .ok price => a + price * p.2)
            0))) := by
    intro ds
    induction ds with
    | nil => simp
    | cons d rest ih =>
      intro acc
      rw [List.foldl_cons, List.filterMap_cons]
      cases hh : holdingsAt (EndOfDayUTC d) with
      | error e =>
        simp only [hh]
        rw [ih acc]
      | ok holdings =>
        simp only [hh]
        rw [ih (acc ++ [(d, _)])]
        rw [List.append_assoc]
        rfl
  exact (general dates []).trans (by rw [List.nil_append])

/-! ## Calendar lemmas (C6) -/

theorem mul_ediv_cancel_left_ediv (a b : ℤ) (h : a ≠ 0) : (a * b).ediv a = b :=
  Int.mul_ediv_cancel_left b h

theorem mem_GetPastDates (d s e : Int) :
    d ∈ GetPastDates s e ↔
      StartOfDayUTC s ≤ d ∧ d ≤ StartOfDayUTC e ∧ StartOfDayUTC d = d := by
  have hn : ((StartOfDayUTC e - StartOfDayUTC s).ediv nsPerDay) =
      e.ediv nsPerDay - s.ediv nsPerDay := by
    unfold StartOfDayUTC
    rw [show nsPerDay * e.ediv nsPerDay - nsPerDay * s.ediv nsPerDay =
        nsPerDay * (e.ediv nsPerDay - s.ediv nsPerDay) by ring]
    exact mul_ediv_cancel_left_ediv _ _ (by norm_num [nsPerDay])
  simp only [GetPastDates]
  rw [hn]
  by_cases hse : StartOfDayUTC s ≤ StartOfDayUTC e
  · rw [if_pos hse]
    rw [List.mem_map]
    constructor
    · rintro ⟨i, hi, rfl⟩
      rw [List.mem_range] at hi
      unfold nsPerDay at hi
      unfold StartOfDayUTC nsPerDay at hse ⊢
      refine ⟨by omega, by omega, ?_⟩
      rw [show (86400000000000 * (s.ediv 86400000000000) + 86400000000000 * (i : ℤ)) =
          86400000000000 * (s.ediv 86400000000000 + (i : ℤ)) by ring,
        mul_ediv_cancel_left_ediv _ _ (by norm_num)]
    · rintro ⟨h1, h2, h3⟩
      unfold StartOfDayUTC nsPerDay at *
      refine ⟨((d.ediv 86400000000000) - (s.ediv 86400000000000)).toNat, ?_, ?_⟩
      · rw [List.mem_range]
        omega
      · omega
  · rw [if_neg hse]
    simp only [List.not_mem_nil, false_iff]
    rintro ⟨h1, h2, h3⟩
    unfold StartOfDayUTC at *
    omega

theorem GetPastDates_nodup (s e : Int) : (GetPastDates s e).Nodup := by
  unfold GetPastDates
  by_cases hse : StartOfDayUTC s ≤ StartOfDayUTC e
  · rw [if_pos hse]
    refine List.Nodup.map ?_ (List.nodup_range _)
    intro a b hab
    simp only [nsPerDay] at hab
    omega
  · rw [if_neg hse]
    exact List.nodup_nil

theorem GetYesterday_lt_today (now : Int) : GetYesterday now < StartOfDayUTC now := by
  unfold GetYesterday StartOfDayUTC nsPerDay
  show 86400000000000 * ((now - 86400000000000).ediv 86400000000000) <
    86400000000000 * (now.ediv 86400000000000)
  have h1 : (now - 86400000000000).ediv 86400000000000 =
      (now - 86400000000000) / 86400000000000 := rfl
  have h2 : now.ediv 86400000000000 = now / 86400000000000 := rfl
  rw [h1, h2]
  omega

/-! ## First-grant lemmas (C6) -/

theorem firstLiveReward_step_some (userId : Int) (acc : Option RewardEvent)
    (r b : RewardEvent)
    (h : (if !r.deleted && decide (r.userId = userId) then
            match acc with
            | none => some r
            | some c => if r.timestamp < c.timestamp then some r else acc
          else acc) = some b) :
    (b = r ∧ r.deleted = false ∧ r.userId = userId) ∨ acc = some b := by
  by_cases hk : (!r.deleted && decide (r.userId = userId)) = true
  · rw [if_pos hk] at h
    have hk2 : r.deleted = false ∧ r.userId = userId := by
      constructor
      · cases hd : r.deleted
        · rfl
        · rw [hd] at hk
          exact absurd hk (by simp)
      · have := (Bool.and_eq_true _ _).mp hk
        exact of_decide_eq_true this.2
    cases acc with
    | none => exact Or.inl ⟨(Option.some.inj h).symm, hk2⟩
    | some c =>
      have h2 : (if r.timestamp < c.timestamp then some r else some c) = some b := h
      by_cases hts : r.timestamp < c.timestamp
      · rw [if_pos hts] at h2
        exact Or.inl ⟨(Option.some.inj h2).symm, hk2⟩
      · rw [if_neg hts] at h2
        exact Or.inr h2
  · rw [if_neg hk] at h
    exact Or.inr h

theorem firstLiveReward_mem_aux (userId : Int) (l : List RewardEvent) :
    ∀ (acc : Option RewardEvent) (fr : RewardEvent),
      l.foldl
        (fun acc r =>
          if !r.deleted && decide (r.userId = userId) then
            match acc with
            | none => some r
            | some b => if r.timestamp < b.timestamp then some r else acc
          else acc) acc = some fr →
      (fr ∈ l ∧ fr.deleted = false ∧ fr.userId = userId) ∨ acc = some fr := by
  induction l with
  | nil => exact fun acc fr h => Or.inr h
  | cons hd tl ih =>
    intro acc fr h
    rw [List.foldl_cons] at h
    rcases ih _ fr h with ⟨hmem, hk⟩ | hstep
    · exact Or.inl ⟨List.mem_cons_of_mem hd hmem, hk⟩
    · rcases firstLiveReward_step_some userId acc hd fr hstep with ⟨heq, hk⟩ | hacc
      · subst heq
        exact Or.inl ⟨List.mem_cons_self _ tl, hk⟩
      · exact Or.inr hacc

theorem firstLiveReward_mem (st : DBState) (userId : Int) (fr : RewardEvent)
    (h : firstLiveReward st userId = some fr) :
    fr ∈ st.rewards ∧ fr.deleted = false ∧ fr.userId = userId := by
  rcases firstLiveReward_mem_aux userId st.rewards none fr h with hres | hnone
  · exact hres
  · exact absurd hnone (by simp)

theorem firstLiveReward_step_le (userId : Int) (acc : Option RewardEvent)
    (hd c : RewardEvent)
    (h : (if !hd.deleted && decide (hd.userId = userId) then
            match acc with
            | none => some hd
            | some b => if hd.timestamp < b.timestamp then some hd else acc
          else acc) = some c) :
    ((!hd.deleted && decide (hd.userId = userId)) = true → c.timestamp ≤ hd.timestamp) ∧
    (∀ b, acc = some b → c.timestamp ≤ b.timestamp) := by
  constructor
  · intro hk
    rw [if_pos hk] at h
    cases hacc : acc with
    | none =>
      rw [hacc] at h
      have hc : hd = c := Option.some.inj h
      subst hc
      exact le_refl _
    | some b =>
      rw [hacc] at h
      have h2 : (if hd.timestamp < b.timestamp then some hd else some b) = some c := h
      by_cases hts : hd.timestamp < b.timestamp
      · have hc : hd = c := Option.some.inj (by rwa [if_pos hts] at h2)
        subst hc
        exact le_refl _
      · have hc : b = c := Option.some.inj (by rwa [if_neg hts] at h2)
        subst hc
        exact le_of_not_lt hts
  · intro b hb
    rw [hb] at h
    by_cases hk : (!hd.deleted && decide (hd.userId = userId)) = true
    · rw [if_pos hk] at h
      have h2 : (if hd.timestamp < b.timestamp then some hd else some b) = some c := h
      by_cases hts : hd.timestamp < b.timestamp
      · have hc : hd = c := Option.some.inj (by rwa [if_pos hts] at h2)
        subst hc
        exact le_of_lt hts
      · have hc : b = c := Option.some.inj (by rwa [if_neg hts] at h2)
        subst hc
        exact le_refl _
    · rw [if_neg hk] at h
      have hc : b = c := Option.some.inj h
      subst hc
      exact le_refl _

theorem firstLiveReward_step_none (userId : Int) (acc : Option RewardEvent)
    (hd : RewardEvent)
    (h : (if !hd.deleted && decide (hd.userId = userId) then
            match acc with
            | none => some hd
            | some b => if hd.timestamp < b.timestamp then some hd else acc
          else acc) = none) :
    acc = none ∧ (!hd.deleted && decide (hd.userId = userId)) = false := by
  by_cases hk : (!hd.deleted && decide (hd.userId = userId)) = true
  · rw [if_pos hk] at h
    cases hacc : acc with
    | none =>
      rw [hacc] at h
      exact absurd h (by simp)
    | some b =>
      rw [hacc] at h
      have h2 : (if hd.timestamp < b.timestamp then some hd else some b) = none := h
      by_cases hts : hd.timestamp < b.timestamp
      · rw [if_pos hts] at h2
        exact absurd h2 (by simp)
      · rw [if_neg hts] at h2
        exact absurd h2 (by simp)
  · rw [if_neg hk] at h
    refine ⟨h, ?_⟩
    cases hkk : (!hd.deleted && decide (hd.userId = userId))
    · rfl
    · exact absurd hkk hk

theorem firstLiveReward_min_aux (userId : Int) (l : List RewardEvent) :
    ∀ (acc : Option RewardEvent) (fr : RewardEvent),
      l.foldl
        (fun acc r =>
          if !r.deleted && decide (r.userId = userId) then
            match acc with
            | none => some r
            | some b => if r.timestamp < b.timestamp then some r else acc
          else acc) acc = some fr →
      (∀ r ∈ l, r.deleted = false → r.userId = userId → fr.timestamp ≤ r.timestamp) ∧
      (∀ b, acc = some b → fr.timestamp ≤ b.timestamp) := by
  induction l with
  | nil =>
    intro acc fr h
    rw [List.foldl_nil] at h
    refine ⟨by simp, ?_⟩
    intro b hb
    rw [hb] at h
    have hc : b = fr := Option.some.inj h
    subst hc
    exact le_refl _
  | cons hd tl ih =>
    intro acc fr h
    rw [List.foldl_cons] at h
    rcases ih _ fr h with ⟨h1, h2⟩
    constructor
    · intro r hmem hdel huser
      rcases List.mem_cons.mp hmem with heq | hmem2
      · subst heq
        have hk : (!r.deleted && decide (r.userId = userId)) = true := by
          simp [hdel, huser]
        rcases Option.eq_none_or_eq_some (if !r.deleted && decide (r.userId = userId) then
            match acc with
            | none => some r
            | some b => if r.timestamp < b.timestamp then some r else acc
          else acc) with hstep | ⟨c, hstep⟩
        · have hbad := (firstLiveReward_step_none userId acc r hstep).2
          rw [hk] at hbad
          exact absurd hbad (by simp)
        · have hle := (firstLiveReward_step_le userId acc r c hstep).1 hk
          exact le_trans (h2 c hstep) hle
      · exact h1 r hmem2 hdel huser
    · intro b hb
      rcases Option.eq_none_or_eq_some (if !hd.deleted && decide (hd.userId = userId) then
          match acc with
          | none => some hd
          | some b => if hd.timestamp < b.timestamp then some hd else acc
        else acc) with hstep | ⟨c, hstep⟩
      · have hbad := (firstLiveReward_step_none userId acc hd hstep).1
        rw [hb] at hbad
        exact absurd hbad (by simp)
      · have hle := (firstLiveReward_step_le userId acc hd c hstep).2 b hb
        exact le_trans (h2 c hstep) hle

/-- The grant `firstLiveReward` returns has the earliest event timestamp
among the user's live grants. -/
theorem firstLiveReward_min (st : DBState) (userId : Int) (fr : RewardEvent)
    (h : firstLiveReward st userId = some fr) :
    ∀ r ∈ st.rewards, r.deleted = false → r.userId = userId →
      fr.timestamp ≤ r.timestamp :=
  (firstLiveReward_min_aux userId st.rewards none fr h).1

theorem firstLiveReward_none_of_no_live (st : DBState) (userId : Int)
    (h : ∀ r ∈ st.rewards, r.userId = userId → r.deleted = true) :
    firstLiveReward st userId = none := by
  unfold firstLiveReward
  have general : ∀ (l : List RewardEvent),
      (∀ r ∈ l, r.userId = userId → r.deleted = true) →
      l.foldl
        (fun acc r =>
          if !r.deleted && decide (r.userId = userId) then
            match acc with
            | none => some r
            | some b => if r.timestamp < b.timestamp then some r else acc
          else acc) none = none := by
    intro l
    induction l with
    | nil => intro _; rfl
    | cons r tl ih =>
      intro hall
      rw [List.foldl_cons]
      have hcond : (!r.deleted && decide (r.userId = userId)) = false := by
        by_cases hu : r.userId = userId
        · rw [hall r (List.mem_cons_self r tl) hu]
          simp
        · simp [hu]
      rw [show (if !r.deleted && decide (r.userId = userId) then
            match (none : Option RewardEvent) with
            | none => some r
            | some b => if r.timestamp < b.timestamp then some r else none
          else none) = none by rw [hcond]; simp]
      exact ih (fun r' hr' => hall r' (List.mem_cons_of_mem r hr'))
  exact general st.rewards h

/-! ## Pure-run lemmas for the historical loop (C6) -/

theorem latestPriceBy_step_isSome (keep : PriceHistory → Bool)
    (acc : Option PriceHistory) (hd : PriceHistory)
    (h : (∃ b, acc = some b) ∨ keep hd = true) :
    ∃ c, (if keep hd then
        match acc with
        | none => some hd
        | some b => if hd.timestamp > b.timestamp then some hd else acc
      else acc) = some c := by
  rcases h with ⟨b, rfl⟩ | hk
  · by_cases hk : keep hd = true
    · rw [if_pos hk]
      by_cases hts : hd.timestamp > b.timestamp
      · exact ⟨hd, if_pos hts⟩
      · exact ⟨b, if_neg hts⟩
    · rw [if_neg hk]
      exact ⟨b, rfl⟩
  · rw [if_pos hk]
    cases acc with
    | none => exact ⟨hd, rfl⟩
    | some b =>
      by_cases hts : hd.timestamp > b.timestamp
      · exact ⟨hd, if_pos hts⟩
      · exact ⟨b, if_neg hts⟩

theorem latestPriceBy_isSome_aux (keep : PriceHistory → Bool) (l : List PriceHistory) :
    ∀ (acc : Option PriceHistory),
      ((∃ b, acc = some b) ∨ ∃ ph ∈ l, keep ph = true) →
      ∃ c, l.foldl
        (fun acc ph =>
          if keep ph then
            match acc with
            | none => some ph
            | some b => if ph.timestamp > b.timestamp then some ph else acc
          else acc) acc = some c := by
  induction l with
  | nil =>
    intro acc h
    rcases h with ⟨b, rfl⟩ | ⟨ph, hmem, _⟩
    · exact ⟨b, rfl⟩
    · exact absurd hmem (List.not_mem_nil ph)
  | cons hd tl ih =>
    intro acc h
    rw [List.foldl_cons]
    apply ih
    rcases h with hacc | ⟨ph, hmem, hk⟩
    · exact Or.inl (latestPriceBy_step_isSome keep acc hd (Or.inl hacc))
    · rcases List.mem_cons.mp hmem with heq | hmem2
      · exact Or.inl (latestPriceBy_step_isSome keep acc hd (Or.inr (heq ▸ hk)))
      · exact Or.inr ⟨ph, hmem2, hk⟩

/-- When a stored sample at or before `timestamp` exists, `GetPriceAtTime`
reads it and leaves the store untouched (no fallback, no write). -/
theorem GetPriceAtTime_found (st : DBState) (now : Int) (symbol : String) (t : Int)
    (h : ∃ ph ∈ st.prices, ph.stockSymbol = symbol ∧ ph.timestamp ≤ t) :
    (GetPriceAtTime st now symbol t).2 = st := by
  obtain ⟨ph, hmem, hsym, hts⟩ := h
  obtain ⟨c, hc⟩ := latestPriceBy_isSome_aux
    (fun p => p.stockSymbol == symbol && decide (p.timestamp ≤ t)) st.prices none
    (Or.inr ⟨ph, hmem, by simp [hsym, hts]⟩)
  unfold GetPriceAtTime
  rw [show latestPriceBy st.prices
      (fun p => p.stockSymbol == symbol && decide (p.timestamp ≤ t)) = some c from hc]

theorem priceFold_pure (st : DBState) (now : Int) (t : Int) :
    ∀ (hs : List (String × ℚ)),
      (∀ p ∈ hs, ∃ ph ∈ st.prices, ph.stockSymbol = p.1 ∧ ph.timestamp ≤ t) →
      ∀ v0 : ℚ,
        hs.foldl
          (fun (acc : ℚ × DBState) p =>
            let (price, st2) := GetPriceAtTime acc.2 now p.1 t
            (acc.1 + price * p.2, st2)) (v0, st) =
        (hs.foldl (fun (v : ℚ) p => v + (GetPriceAtTime st now p.1 t).1 * p.2) v0, st) := by
  intro hs
  induction hs with
  | nil => intro _ v0; rfl
  | cons p rest ih =>
    intro h v0
    rw [List.foldl_cons, List.foldl_cons]
    have hst : (GetPriceAtTime st now p.1 t).2 = st :=
      GetPriceAtTime_found st now p.1 t (h p (List.mem_cons_self p rest))
    show List.foldl _
        ((v0 + (GetPriceAtTime st now p.1 t).1 * p.2 : ℚ),
          (GetPriceAtTime st now p.1 t).2) rest = _
    rw [hst]
    exact ih (fun q hq => h q (List.mem_cons_of_mem p hq)) _

theorem historicalDayValue_pure (st : DBState) (now : Int) (userId : Int) (date : Int)
    (h : ∀ p ∈ GetUserStockHoldingsUpToDate st userId (EndOfDayUTC date),
      ∃ ph ∈ st.prices, ph.stockSymbol = p.1 ∧ ph.timestamp ≤ EndOfDayUTC date) :
    historicalDayValue st now userId date =
      ((GetUserStockHoldingsUpToDate st userId (EndOfDayUTC date)).foldl
        (fun (v : ℚ) p => v + (GetPriceAtTime st now p.1 (EndOfDayUTC date)).1 * p.2) 0,
        st) := by
  unfold historicalDayValue
  exact priceFold_pure st now (EndOfDayUTC date)
    (GetUserStockHoldingsUpToDate st userId (EndOfDayUTC date)) h 0

theorem histLoop_dates (now : Int) (userId : Int) :
    ∀ (dates : List Int) (acc : List (Int × ℚ) × DBState),
      ((dates.foldl
        (fun (acc : List (Int × ℚ) × DBState) date =>
          let (totalValue, st2) := historicalDayValue acc.2 now userId date
          (acc.1 ++ [(date, RoundINR totalValue)], st2)) acc).1.map Prod.fst) =
      acc.1.map Prod.fst ++ dates := by
  intro dates
  induction dates with
  | nil => intro acc; simp
  | cons d rest ih =>
    intro acc
    rw [List.foldl_cons]
    rw [ih]
    show (acc.1 ++ [(d, RoundINR (historicalDayValue acc.2 now userId d).1)]).map
        Prod.fst ++ rest = _
    simp

theorem histLoop_pure (st : DBState) (now : Int) (userId : Int) :
    ∀ (dates : List Int),
      (∀ date ∈ dates, ∀ p ∈ GetUserStockHoldingsUpToDate st userId (EndOfDayUTC date),
        ∃ ph ∈ st.prices, ph.stockSymbol = p.1 ∧ ph.timestamp ≤ EndOfDayUTC date) →
      ∀ l0 : List (Int × ℚ),
        dates.foldl
          (fun (acc : List (Int × ℚ) × DBState) date =>
            let (totalValue, st2) := historicalDayValue acc.2 now userId date
            (acc.1 ++ [(date, RoundINR totalValue)], st2)) (l0, st) =
        (l0 ++ dates.map (fun date =>
          (date, RoundINR ((GetUserStockHoldingsUpToDate st userId (EndOfDayUTC date)).foldl
            (fun (v : ℚ) p => v + (GetPriceAtTime st now p.1 (EndOfDayUTC date)).1 * p.2)
            0))),
          st) := by
  intro dates
  induction dates with
  | nil => intro _ l0; simp
  | cons d rest ih =>
    intro h l0
    rw [List.foldl_cons, List.map_cons]
    have hd1 := historicalDayValue_pure st now userId d (h d (List.mem_cons_self d rest))
    have h1 : (historicalDayValue st now userId d).1 =
        (GetUserStockHoldingsUpToDate st userId (EndOfDayUTC d)).foldl
          (fun (v : ℚ) p => v + (GetPriceAtTime st now p.1 (EndOfDayUTC d)).1 * p.2) 0 := by
      rw [hd1]
    have h2 : (historicalDayValue st now userId d).2 = st := by
      rw [hd1]
    show List.foldl _
        ((l0 ++ [(d, RoundINR (historicalDayValue st now userId d).1)] : List (Int × ℚ)),
          (historicalDayValue st now userId d).2) rest = _
    rw [h1, h2]
    rw [ih (fun date hd p hp => h date (List.mem_cons_of_mem d hd) p hp)]
    simp

theorem StartOfDayUTC_idem (t : Int) :
    StartOfDayUTC (StartOfDayUTC t) = StartOfDayUTC t := by
  unfold StartOfDayUTC
  rw [mul_ediv_cancel_left_ediv _ _ (by norm_num [nsPerDay])]

theorem StartOfDayUTC_GetYesterday (now : Int) :
    StartOfDayUTC (GetYesterday now) = GetYesterday now := by
  unfold GetYesterday
  exact StartOfDayUTC_idem _

/-- C6: `GetHistoricalINR` returns an empty list when the user has no
grants.  Otherwise, with `fr` the user's earliest live grant (no code
path ever soft-deletes a grant, so this is the first-ever grant on every
reachable store), the result carries exactly one row per UTC day: its
date column equals `GetPastDates (StartOfDayUTC fr.timestamp)
(GetYesterday now)`, is duplicate-free, contains precisely the day
starts between the first grant's day and yesterday inclusive, and never
reaches today.  When every holding of every listed day has a stored
price sample at or before that day's end (so the `GetPriceAtTime`
fallback never fires), each day's value is `RoundINR` of the sum over
the day's holdings of quantity times the price at the end of that day,
and the store is returned unchanged. -/
theorem claim_C6 (st : DBState) (now : Int) (userId : Int) :
    ((∀ r ∈ st.rewards, r.userId = userId → r.deleted = true) →
      GetHistoricalINR st now userId = ([], st)) ∧
    (∀ fr, firstLiveReward st userId = some fr →
      (fr ∈ st.rewards ∧ fr.deleted = false ∧ fr.userId = userId) ∧
      (∀ r ∈ st.rewards, r.deleted = false → r.userId = userId →
        fr.timestamp ≤ r.timestamp) ∧
      ((GetHistoricalINR st now userId).1.map Prod.fst =
        GetPastDates (StartOfDayUTC fr.timestamp) (GetYesterday now)) ∧
      ((GetHistoricalINR st now userId).1.map Prod.fst).Nodup ∧
      (∀ d, d ∈ (GetHistoricalINR st now userId).1.map Prod.fst ↔
        StartOfDayUTC fr.timestamp ≤ d ∧ d ≤ GetYesterday now ∧
          StartOfDayUTC d = d) ∧
      (∀ d ∈ (GetHistoricalINR st now userId).1.map Prod.fst,
        d < StartOfDayUTC now) ∧
      ((∀ date ∈ GetPastDates (StartOfDayUTC fr.timestamp) (GetYesterday now),
          ∀ p ∈ GetUserStockHoldingsUpToDate st userId (EndOfDayUTC date),
          ∃ ph ∈ st.prices, ph.stockSymbol = p.1 ∧ ph.timestamp ≤ EndOfDayUTC date) →
        GetHistoricalINR st now userId =
          ((GetPastDates (StartOfDayUTC fr.timestamp) (GetYesterday now)).map
            (fun date =>
              (date, RoundINR
                ((GetUserStockHoldingsUpToDate st userId (EndOfDayUTC date)).foldl
                  (fun (v : ℚ) p =>
                    v + (GetPriceAtTime st now p.1 (EndOfDayUTC date)).1 * p.2) 0))),
            st))) := by
  constructor
  · intro h
    have hnone := firstLiveReward_none_of_no_live st userId h
    unfold GetHistoricalINR
    rw [hnone]
  · intro fr hfr
    have hrun : GetHistoricalINR st now userId =
        (GetPastDates (StartOfDayUTC fr.timestamp) (GetYesterday now)).foldl
          (fun (acc : List (Int × ℚ) × DBState) date =>
            let (totalValue, st2) := historicalDayValue acc.2 now userId date
            (acc.1 ++ [(date, RoundINR totalValue)], st2))
          ([], st) := by
      unfold GetHistoricalINR
      rw [hfr]
    have hdates : (GetHistoricalINR st now userId).1.map Prod.fst =
        GetPastDates (StartOfDayUTC fr.timestamp) (GetYesterday now) := by
      rw [hrun, histLoop_dates now userId]
      simp
    refine ⟨firstLiveReward_mem st userId fr hfr,
      firstLiveReward_min st userId fr hfr, hdates, ?_, ?_, ?_, ?_⟩
    · rw [hdates]
      exact GetPastDates_nodup _ _
    · intro d
      rw [hdates, mem_GetPastDates, StartOfDayUTC_idem, StartOfDayUTC_GetYesterday]
    · intro d hd
      rw [hdates, mem_GetPastDates, StartOfDayUTC_GetYesterday] at hd
      exact lt_of_le_of_lt hd.2.1 (GetYesterday_lt_today now)
    · intro hprices
      rw [hrun]
      simpa using histLoop_pure st now userId _ hprices []

/-- One-grant store for exercising `GetHistoricalINR`: user 7 received
2 RELIANCE at time 100 (day 0), one price sample of 1500 at time 0. -/
def C6reward : RewardEvent := ⟨1, 7, ("RELIANCE"), 2, 100, false⟩

def C6entry : LedgerEntry := ⟨1, EntryType.STOCK, some ("RELIANCE"), 2, 0, 100⟩

def C6price : PriceHistory := ⟨("RELIANCE"), 1500, 0⟩

def C6state : DBState := ⟨[C6reward], [C6entry], [C6price], 2, ⟨[], []⟩⟩

/-- C6 witness: at `now` early on day 2, the user granted on day 0 gets
exactly the rows for day 0 and day 1, each valued 2 × 1500 = 3000. -/
theorem claim_C6_witness :
    GetHistoricalINR C6state 172800000000005 7 =
      ([(0, 3000), (86400000000000, 3000)], C6state) := by
  have h := ((claim_C6 C6state 172800000000005 7).2 C6reward (by decide)).2.2.2.2.2.2
  have h2 := h (by decide)
  exact h2.trans (by decide)

/-- C10 witness: the reversal happens at time 50, yet holdings as of
time 10 (before the reversal, after the grant's event at time 0) already
exclude the grant. -/
theorem claim_C10_witness :
    ((⟨0, 1, ("A"), 1, 0, false⟩ : RewardEvent).timestamp ≤ 10) ∧
    holdingsLookup
        (GetUserStockHoldingsUpToDate
          (CreateReversalEntries
            ⟨[⟨0, 1, ("A"), 1, 0, false⟩],
              createLedgerEntriesInTx ⟨0, 1, ("A"), 1, 0, false⟩ 100, [], 1, ⟨[], []⟩⟩
            50 0)
          1 10) ("A") =
      holdingsLookup
        (GetUserStockHoldingsUpToDate
          ⟨[⟨0, 1, ("A"), 1, 0, false⟩], [], [], 1, ⟨[], []⟩⟩ 1 10) ("A") :=
  ⟨by decide,
    (claim_C10
      ⟨[⟨0, 1, ("A"), 1, 0, false⟩],
        createLedgerEntriesInTx ⟨0, 1, ("A"), 1, 0, false⟩ 100, [], 1, ⟨[], []⟩⟩
      50 1 ⟨0, 1, ("A"), 1, 0, false⟩ 10 ("A") (by decide) (by decide) (by decide)
      (by decide)).trans (by decide)⟩

end Stocky
